import Mathlib

/-!
# OData metadata explorer — verification development

A shallow embedding of the metadata parsing, relationship-extraction,
search/filter, view-state store, graph-builder and layout layers of the
OData explorer, together with proofs of the specified properties.

JavaScript strings are modelled as Lean `String`; the string primitives the
code relies on (`toLowerCase`, `trim`, `includes`, `split`, `startsWith`,
regular-expression matching) are given explicit structural definitions over
`String.data` so that every definition evaluates by kernel reduction.
-/

/-- JS `String.prototype.includes` on char lists: `q` occurs contiguously in `s`. -/
def subListOf (q : List Char) : List Char → Bool
  | [] => q.isEmpty
  | c :: t => q.isPrefixOf (c :: t) || subListOf q t

/-- JS `s.includes(q)`: substring test. -/
def jsIncludes (s q : String) : Bool := subListOf q.data s.data

/-- JS `String.prototype.toLowerCase` (per-char, as in Lean's `Char.toLower`). -/
def lowerStr (s : String) : String := ⟨s.data.map Char.toLower⟩

/-- JS `String.prototype.trim`: drop whitespace from both ends. -/
def trimStr (s : String) : String :=
  ⟨((s.data.dropWhile Char.isWhitespace).reverse.dropWhile Char.isWhitespace).reverse⟩

/-- JS `s.startsWith(pre)`. -/
def startsWithStr (s pre : String) : Bool := pre.data.isPrefixOf s.data

/-- JS `s.split(sep)` for a single-char separator, on char lists.
`split` never returns an empty array: splitting `""` yields `[""]`. -/
def splitOnChar (sep : Char) : List Char → List (List Char)
  | [] => [[]]
  | c :: rest =>
    match splitOnChar sep rest with
    | [] => [[c]]
    | h :: t => if c = sep then [] :: h :: t else (c :: h) :: t

/-- `parts[parts.length - 1]` after `s.split('.')`: the last dot-separated segment. -/
def lastSegment (s : String) : String := ⟨(splitOnChar '.' s.data).getLastD []⟩

/-- JS `a || b` for a nullable string `a` with string default `b`
(`null` and `""` are both falsy). -/
def jsOr (a : Option String) (b : String) : String :=
  match a with
  | some s => if s = "" then b else s
  | none => b

/-- JS truthiness filter on a nullable string: `""` and `null` collapse to `none`. -/
def jsTruthy (a : Option String) : Option String :=
  match a with
  | some s => if s = "" then none else some s
  | none => none

/-- JS `a || b || undefined` for two nullable strings. -/
def firstTruthy (a b : Option String) : Option String :=
  match jsTruthy a with
  | some s => some s
  | none => jsTruthy b

/-- JS `s.replace(pat, '')` with a *string* pattern: remove the first
occurrence of `pat` only (used for stripping a leading `Edm.`). -/
def stripFirstList (pat : List Char) : List Char → List Char
  | [] => []
  | c :: rest =>
    if pat.isPrefixOf (c :: rest) then (c :: rest).drop pat.length
    else c :: stripFirstList pat rest

/-- JS `s.replace('Edm.', '')` and friends (first occurrence removed). -/
def jsStripFirst (s pat : String) : String := ⟨stripFirstList pat.data s.data⟩

/-- JS `s.replace(/^c_/, '')`: strip one leading `c_`. -/
def stripCPrefix (s : String) : String :=
  if startsWithStr s "c_" then ⟨s.data.drop 2⟩ else s

/-- JS `parseInt(s, 10)`: leading whitespace, optional sign, leading decimal
digits; `none` models `NaN`. -/
def jsParseInt (s : String) : Option Int :=
  let cs := s.data.dropWhile Char.isWhitespace
  let signed : Int × List Char :=
    match cs with
    | '-' :: r => (-1, r)
    | '+' :: r => (1, r)
    | r => (1, r)
  let digits := signed.2.takeWhile Char.isDigit
  if digits.isEmpty then none
  else some (signed.1 * (digits.foldl (fun acc c => acc * 10 + (c.toNat - 48)) 0 : Nat))

/-- Last-wins association-list lookup, modelling `Map.get` on a JS `Map`
built from an entry list (later entries overwrite earlier ones). -/
def mapGet {α : Type} (l : List (String × α)) (k : String) : Option α :=
  (l.reverse.find? (fun p => p.1 = k)).map (·.2)

/-- First match of the *unanchored* regex `Collection\((.+)\)` in `s`
(greedy `.+`, which does not cross a newline), returning capture group 1.
The engine tries each start position left to right; at a given start the
literal `Collection(` must match, and then the greedy `.+` backtracks to
the last `)` reachable on the same line with at least one captured char. -/
def ctInnerAt (cs : List Char) : Option (List Char) :=
  let line := cs.takeWhile (fun c => ¬ c = '\n')
  let closes := (List.range line.length).filter (fun i => line.getD i ' ' = ')')
  match closes.getLast? with
  | some p => if 1 ≤ p then some (line.take p) else none
  | none => none

/-- Scan for the leftmost start position of a `Collection\((.+)\)` match. -/
def ctMatchList : List Char → Option (List Char)
  | [] => none
  | c :: rest =>
    if ("Collection(".data).isPrefixOf (c :: rest) then
      match ctInnerAt ((c :: rest).drop 11) with
      | some inner => some inner
      | none => ctMatchList rest
    else ctMatchList rest

/-- JS `s.match(/Collection\((.+)\)/)`, capture group 1. -/
def ctMatch (s : String) : Option String := (ctMatchList s.data).map (⟨·⟩)

/-- The *anchored* regex `^Collection\((.+)\)$` of
`isComplexTypeCollection`: the whole string is `Collection(` ++ inner ++ `)`
with inner nonempty and newline-free. -/
def anchoredCollectionInner (s : String) : Option String :=
  let cs := s.data
  if ("Collection(".data).isPrefixOf cs ∧ cs.getLast? = some ')' ∧ 13 ≤ cs.length ∧
      ∀ c ∈ (cs.drop 11).dropLast, ¬ c = '\n' then
    some ⟨(cs.drop 11).dropLast⟩
  else none

/-! ## OData data model (`src/types.ts`) -/

/-- A referential constraint of a navigation property. -/
structure RefConstraint where
  property : String
  referencedProperty : String
deriving DecidableEq

/-- `ODataProperty`.  `maxLength`/`precision`/`scale` are
`number | undefined` in TS; the inner `Option Int` models a possible `NaN`
from `parseInt`. -/
structure ODataProperty where
  name : String
  type : String
  nullable : Bool
  isKey : Bool
  maxLength : Option (Option Int)
  precision : Option (Option Int)
  scale : Option (Option Int)
deriving DecidableEq

/-- `ODataNavigationProperty`. -/
structure ODataNavigationProperty where
  name : String
  type : String
  targetEntity : String
  isCollection : Bool
  partner : Option String
  referentialConstraints : Option (List RefConstraint)
deriving DecidableEq

/-- `ODataEntity` (`namespace` is a Lean keyword; the field is `namespaceName`). -/
structure ODataEntity where
  name : String
  fullName : String
  namespaceName : String
  properties : List ODataProperty
  navigationProperties : List ODataNavigationProperty
  keyProperties : List String
  baseType : Option String
deriving DecidableEq

/-- `ODataComplexType`. -/
structure ODataComplexType where
  name : String
  fullName : String
  namespaceName : String
  properties : List ODataProperty
  navigationProperties : List ODataNavigationProperty
  baseType : Option String
  keyProperty : Option String
deriving DecidableEq

/-- `ODataEnumMember` (the parser only ever produces string values). -/
structure ODataEnumMember where
  name : String
  value : Option String
deriving DecidableEq

/-- `ODataEnumType`. -/
structure ODataEnumType where
  name : String
  fullName : String
  namespaceName : String
  members : List ODataEnumMember
  underlyingType : Option String
  isFlags : Bool
deriving DecidableEq

/-- `ODataSchema`. -/
structure ODataSchema where
  namespaceName : String
  aliasName : Option String
  entities : List ODataEntity
  complexTypes : List ODataComplexType
  enumTypes : List ODataEnumType
deriving DecidableEq

/-- `ODataMetadata` — the root aggregate. -/
structure ODataMetadata where
  version : String
  schemas : List ODataSchema
  allEntities : List ODataEntity
  allComplexTypes : List ODataComplexType
  allEnumTypes : List ODataEnumType
deriving DecidableEq

/-- One directed relationship edge of `extractRelationships`. -/
structure EntityRelationship where
  sourceEntity : String
  targetEntity : String
  navProp : String
  isCollection : Bool
deriving DecidableEq


/-! ## XML document model

The DOM produced by `DOMParser` is modelled as a tree of elements carrying
a local name, a qualified (prefixed) tag name, an optional namespace URI,
attributes and child elements.  A `DOMParser` run is an
`Except String XmlElement`: `Except.error txt` models a document containing
a `parsererror` node with text content `txt`. -/

/-- An XML attribute node. -/
structure XmlAttr where
  nsURI : Option String
  qualifiedName : String
  localName : String
  value : String

mutual
/-- An XML element node (children are an `XmlForest` so that the tree
admits structural recursion). -/
inductive XmlElement where
  | mk (localName : String) (qualifiedName : String) (nsURI : Option String)
      (attrs : List XmlAttr) (children : XmlForest)
/-- A sequence of sibling XML elements. -/
inductive XmlForest where
  | nil
  | cons (head : XmlElement) (tail : XmlForest)
end

/-- Build a forest from an element list (used only to write literals). -/
def XmlForest.ofList : List XmlElement → XmlForest
  | [] => .nil
  | e :: rest => .cons e (XmlForest.ofList rest)

def XmlElement.localName : XmlElement → String
  | .mk l _ _ _ _ => l

def XmlElement.qualifiedName : XmlElement → String
  | .mk _ q _ _ _ => q

def XmlElement.nsURI : XmlElement → Option String
  | .mk _ _ n _ _ => n

def XmlElement.attrs : XmlElement → List XmlAttr
  | .mk _ _ _ a _ => a

def XmlElement.children : XmlElement → XmlForest
  | .mk _ _ _ _ c => c

/-- The direct children of an element, as a list. -/
def XmlForest.toList : XmlForest → List XmlElement
  | .nil => []
  | .cons h t => h :: t.toList

/-- DOM `getAttribute(name)`: match on the qualified attribute name. -/
def XmlElement.getAttribute (e : XmlElement) (n : String) : Option String :=
  (e.attrs.find? (fun a => a.qualifiedName = n)).map (·.value)

/-- DOM `getAttributeNS(ns, localName)`. -/
def XmlElement.getAttributeNS (e : XmlElement) (ns n : String) : Option String :=
  (e.attrs.find? (fun a => a.nsURI = some ns ∧ a.localName = n)).map (·.value)

mutual
/-- Pre-order walk of an element: the element followed by its descendants. -/
def XmlElement.preOrder : XmlElement → List XmlElement
  | .mk l q n a ch => .mk l q n a ch :: ch.preOrder
  termination_by structural e => e
/-- Pre-order walk of a forest. -/
def XmlForest.preOrder : XmlForest → List XmlElement
  | .nil => []
  | .cons h t => h.preOrder ++ t.preOrder
  termination_by structural f => f
end

/-- All proper descendant elements in document (pre-)order, as walked by
`getElementsByTagName*`. -/
def XmlElement.descendants (e : XmlElement) : List XmlElement :=
  e.children.preOrder

/-- The OData EDMX namespace URI (`EDMX_NS`). -/
def EDMX_NS : String := "http://docs.oasis-open.org/odata/ns/edmx"

/-- The OData EDM namespace URI (`EDM_NS`). -/
def EDM_NS : String := "http://docs.oasis-open.org/odata/ns/edm"

/-- `getElementsByTagNameNS(ns, localName)`: descendants matching namespace
URI and local name. -/
def XmlElement.byTagNameNS (e : XmlElement) (ns n : String) : List XmlElement :=
  e.descendants.filter (fun c => c.nsURI = some ns ∧ c.localName = n)

/-- `getElementsByTagName(name)`: descendants whose qualified tag name
matches (XML documents match the qualified name, prefix included). -/
def XmlElement.byTagName (e : XmlElement) (n : String) : List XmlElement :=
  e.descendants.filter (fun c => c.qualifiedName = n)

/-- `findElement(parent, localName)` from `parser.ts`: EDM namespace, then
EDMX namespace, then unqualified tag name, then direct children by local
name. -/
def findElement (parent : XmlElement) (localName : String) : Option XmlElement :=
  match (parent.byTagNameNS EDM_NS localName).head? with
  | some el => some el
  | none =>
    match (parent.byTagNameNS EDMX_NS localName).head? with
    | some el => some el
    | none =>
      match (parent.byTagName localName).head? with
      | some el => some el
      | none => parent.children.toList.find? (fun c => c.localName = localName)

/-- `findElements(parent, localName)` from `parser.ts` (same fallback
tiers, each used only when every earlier tier is empty). -/
def findElements (parent : XmlElement) (localName : String) : List XmlElement :=
  let nsElements := parent.byTagNameNS EDM_NS localName
  if nsElements.isEmpty then
    let edmxElements := parent.byTagNameNS EDMX_NS localName
    if edmxElements.isEmpty then
      parent.children.toList.filter (fun c => c.localName = localName)
    else edmxElements
  else nsElements

/-! ## Metadata parser (`src/parser.ts`) -/

/-- `parseProperty(propElement, keyProperties)`. -/
def parseProperty (propElement : XmlElement) (keyProperties : List String) :
    ODataProperty :=
  let name := jsOr (propElement.getAttribute "Name") "Unknown"
  let type := jsOr (propElement.getAttribute "Type") "Edm.String"
  let nullableAttr := propElement.getAttribute "Nullable"
  let parsedNum : Option String → Option (Option Int) := fun a =>
    match jsTruthy a with
    | some s => some (jsParseInt s)
    | none => none
  { name := name
    type := type
    nullable := ¬ nullableAttr = some "false"
    isKey := keyProperties.contains name
    maxLength := parsedNum (propElement.getAttribute "MaxLength")
    precision := parsedNum (propElement.getAttribute "Precision")
    scale := parsedNum (propElement.getAttribute "Scale") }

/-- `parseNavigationProperty(navPropElement)`. -/
def parseNavigationProperty (navPropElement : XmlElement) :
    ODataNavigationProperty :=
  let name := jsOr (navPropElement.getAttribute "Name") "Unknown"
  let type := jsOr (navPropElement.getAttribute "Type") ""
  let partner := jsTruthy (navPropElement.getAttribute "Partner")
  let isCollection := startsWithStr type "Collection("
  let afterMatch :=
    if isCollection then
      match ctMatch type with
      | some inner => inner
      | none => type
    else type
  let targetEntity := lastSegment afterMatch
  let constraints :=
    (findElements navPropElement "ReferentialConstraint").map (fun el =>
      { property := jsOr (el.getAttribute "Property") ""
        referencedProperty := jsOr (el.getAttribute "ReferencedProperty") ""
        : RefConstraint })
  { name := name
    type := type
    targetEntity := targetEntity
    isCollection := isCollection
    partner := partner
    referentialConstraints :=
      if constraints.length > 0 then some constraints else none }

/-- `parseEntityType(entityElement, namespace)`. -/
def parseEntityType (entityElement : XmlElement) (ns : String) : ODataEntity :=
  let name := jsOr (entityElement.getAttribute "Name") "Unknown"
  let baseType := jsTruthy (entityElement.getAttribute "BaseType")
  let keyProperties :=
    match findElement entityElement "Key" with
    | some keyElement =>
      (findElements keyElement "PropertyRef").filterMap (fun r =>
        jsTruthy (r.getAttribute "Name"))
    | none => []
  { name := name
    fullName := ns ++ "." ++ name
    namespaceName := ns
    properties :=
      (findElements entityElement "Property").map (parseProperty · keyProperties)
    navigationProperties :=
      (findElements entityElement "NavigationProperty").map parseNavigationProperty
    keyProperties := keyProperties
    baseType := baseType }

/-- The custom annotation namespace consulted for complex-type keys. -/
def ELITE_NS : String := "https://www.elite.com/schemas"

/-- `parseComplexType(complexElement, namespace)`. -/
def parseComplexType (complexElement : XmlElement) (ns : String) :
    ODataComplexType :=
  let name := jsOr (complexElement.getAttribute "Name") "Unknown"
  let baseType := jsTruthy (complexElement.getAttribute "BaseType")
  let keyProperty :=
    firstTruthy (complexElement.getAttributeNS ELITE_NS "Key")
      (complexElement.getAttribute "E3E:Key")
  { name := name
    fullName := ns ++ "." ++ name
    namespaceName := ns
    properties :=
      (findElements complexElement "Property").map
        (parseProperty · (match keyProperty with | some k => [k] | none => []))
    navigationProperties :=
      (findElements complexElement "NavigationProperty").map parseNavigationProperty
    baseType := baseType
    keyProperty := keyProperty }

/-- `parseEnumType(enumElement, namespace)`. -/
def parseEnumType (enumElement : XmlElement) (ns : String) : ODataEnumType :=
  { name := jsOr (enumElement.getAttribute "Name") "Unknown"
    fullName := ns ++ "." ++ jsOr (enumElement.getAttribute "Name") "Unknown"
    namespaceName := ns
    members :=
      (findElements enumElement "Member").map (fun el =>
        { name := jsOr (el.getAttribute "Name") "Unknown"
          value := jsTruthy (el.getAttribute "Value") : ODataEnumMember })
    underlyingType := jsTruthy (enumElement.getAttribute "UnderlyingType")
    isFlags := enumElement.getAttribute "IsFlags" = some "true" }

/-- `parseSchema(schemaElement)`. -/
def parseSchema (schemaElement : XmlElement) : ODataSchema :=
  let ns := jsOr (schemaElement.getAttribute "Namespace") "Default"
  { namespaceName := ns
    aliasName := jsTruthy (schemaElement.getAttribute "Alias")
    entities := (findElements schemaElement "EntityType").map (parseEntityType · ns)
    complexTypes :=
      (findElements schemaElement "ComplexType").map (parseComplexType · ns)
    enumTypes := (findElements schemaElement "EnumType").map (parseEnumType · ns) }

/-- The result of running `DOMParser` on the input text: a parse error with
its diagnostic text, or the document root element. -/
def DomResult : Type := Except String XmlElement

/-- `parseODataMetadata(xmlString)` over the parsed DOM.  Throws are
modelled with `Except.error`. -/
def parseODataMetadata (doc : DomResult) : Except String ODataMetadata :=
  match doc with
  | .error txt => .error ("XML Parse Error: " ++ txt)
  | .ok root =>
    if jsIncludes (lowerStr root.localName) "edmx" then
      let version := jsOr (root.getAttribute "Version") "4.0"
      match findElement root "DataServices" with
      | none => .error "Invalid OData metadata: Missing DataServices element"
      | some dataServices =>
        let schemas := (findElements dataServices "Schema").map parseSchema
        .ok
          { version := version
            schemas := schemas
            allEntities := schemas.flatMap (·.entities)
            allComplexTypes := schemas.flatMap (·.complexTypes)
            allEnumTypes := schemas.flatMap (·.enumTypes) }
    else .error "Invalid OData metadata: Root element must be Edmx"

/-- `extractRelationships(metadata)`: one directed edge per navigation
property whose bare target name is a known entity name. -/
def extractRelationships (metadata : ODataMetadata) : List EntityRelationship :=
  let entityNames := metadata.allEntities.map (·.name)
  metadata.allEntities.flatMap (fun entity =>
    entity.navigationProperties.filterMap (fun navProp =>
      if navProp.targetEntity ∈ entityNames then
        some
          { sourceEntity := entity.name
            targetEntity := navProp.targetEntity
            navProp := navProp.name
            isCollection := navProp.isCollection }
      else none))

/-! ## View state store (`src/state.ts`) -/

/-- The discriminant of a `NavigationPathStep`. -/
inductive PathKind where
  | entityPath
  | complexPath
deriving DecidableEq

/-- A breadcrumb entry for complex-type drilling. -/
structure NavigationPathStep where
  kind : PathKind
  typeName : String
  propertyName : String
  displayName : String
deriving DecidableEq

/-- `AppState` (`src/types.ts`).  JS `Set<string>` fields are `Finset String`. -/
structure AppState where
  metadata : Option ODataMetadata
  selectedEntity : Option ODataEntity
  searchQuery : String
  error : Option String
  loading : Bool
  collapsedNamespaces : Finset String
  diagramRootEntity : Option ODataEntity
  diagramExpandedNodes : Finset String
  navigationPath : List NavigationPathStep

/-- The store's initial state. -/
def initialState : AppState :=
  { metadata := none
    selectedEntity := none
    searchQuery := ""
    error := none
    loading := false
    collapsedNamespaces := ∅
    diagramRootEntity := none
    diagramExpandedNodes := ∅
    navigationPath := [] }

/-- `Store.setMetadata` — the load-metadata transition. -/
def setMetadata (st : AppState) (metadata : Option ODataMetadata) : AppState :=
  { st with
    metadata := metadata
    selectedEntity := none
    error := none
    collapsedNamespaces := ∅
    diagramRootEntity := none
    diagramExpandedNodes := ∅ }

/-- `Store.setError` (also clears the loading flag). -/
def setError (st : AppState) (error : Option String) : AppState :=
  { st with error := error, loading := false }

/-- `Store.setLoading`. -/
def setLoading (st : AppState) (loading : Bool) : AppState :=
  { st with loading := loading }

/-- `handleParse` from the input component, after `DOMParser` has run on a
non-blank input: sets the loading flag, clears the error, then either
commits the parsed metadata or publishes the thrown message. -/
def handleParse (st : AppState) (doc : DomResult) : AppState :=
  let st1 := setLoading st true
  let st2 := setError st1 none
  match parseODataMetadata doc with
  | .ok metadata => setLoading (setMetadata st2 (some metadata)) false
  | .error msg => setError st2 (some msg)

/-- The multi-field match predicate of `Store.getFilteredEntities`
(the body of the `filter` callback), with `query` already lower-cased and
trimmed. -/
def entityMatchesQuery (entity : ODataEntity) (query : String) : Bool :=
  jsIncludes (lowerStr entity.name) query ||
  jsIncludes (lowerStr entity.namespaceName) query ||
  jsIncludes (lowerStr entity.fullName) query ||
  entity.properties.any (fun p => jsIncludes (lowerStr p.name) query) ||
  entity.properties.any (fun p => jsIncludes (lowerStr p.type) query) ||
  entity.navigationProperties.any (fun np => jsIncludes (lowerStr np.name) query) ||
  entity.navigationProperties.any
    (fun np => jsIncludes (lowerStr np.targetEntity) query) ||
  entity.keyProperties.any (fun k => jsIncludes (lowerStr k) query) ||
  (match entity.baseType with
   | some b => jsIncludes (lowerStr b) query
   | none => false)

/-- `Store.getFilteredEntities`, as a function of the state's metadata and
search query. -/
def getFilteredEntities (metadata : Option ODataMetadata) (searchQuery : String) :
    List ODataEntity :=
  match metadata with
  | none => []
  | some md =>
    let query := trimStr (lowerStr searchQuery)
    if query = "" then md.allEntities
    else md.allEntities.filter (entityMatchesQuery · query)

/-- `Store.isComplexTypeCollection`, as a function of the state's metadata
(the store always has metadata loaded when the graph builder calls it). -/
def isComplexTypeCollection (metadata : ODataMetadata) (propertyType : String) :
    Bool × Option String :=
  match anchoredCollectionInner propertyType with
  | none => (false, none)
  | some innerType =>
    let lastSeg := lastSegment innerType
    let typeName := if lastSeg = "" then innerType else lastSeg
    let isComplex := metadata.allComplexTypes.any
      (fun ct => ct.name = typeName ∨ ct.fullName = innerType)
    (true, if isComplex then some typeName else none)

/-- `getMatchHint(entity, query)` from the sidebar component. -/
def getMatchHint (entity : ODataEntity) (query : String) : Option String :=
  if query = "" then none
  else
    let q := lowerStr query
    if jsIncludes (lowerStr entity.name) q then none
    else
      match entity.properties.find? (fun p => jsIncludes (lowerStr p.name) q) with
      | some p => some ("prop: " ++ p.name)
      | none =>
        match entity.properties.find? (fun p => jsIncludes (lowerStr p.type) q) with
        | some p => some ("type: " ++ jsStripFirst p.type "Edm.")
        | none =>
          match entity.navigationProperties.find?
              (fun np => jsIncludes (lowerStr np.name) q) with
          | some np => some ("nav: " ++ np.name)
          | none =>
            match entity.navigationProperties.find?
                (fun np => jsIncludes (lowerStr np.targetEntity) q) with
            | some np => some ("→ " ++ np.targetEntity)
            | none =>
              if jsIncludes (lowerStr entity.namespaceName) q then
                some ("ns: " ++ entity.namespaceName)
              else
                match entity.keyProperties.find?
                    (fun k => jsIncludes (lowerStr k) q) with
                | some k => some ("key: " ++ k)
                | none => none

/-- A tiny well-formed document used to exercise the parser. -/
def tinyDoc : XmlElement :=
  .mk "Edmx" "edmx:Edmx" (some EDMX_NS)
    [⟨none, "Version", "Version", "4.0"⟩]
    (.ofList
      [.mk "DataServices" "edmx:DataServices" (some EDMX_NS) []
        (.ofList
          [.mk "Schema" "Schema" (some EDM_NS)
            [⟨none, "Namespace", "Namespace", "NS"⟩]
            (.ofList
              [.mk "EntityType" "EntityType" (some EDM_NS)
                [⟨none, "Name", "Name", "A"⟩]
                (.ofList
                  [.mk "NavigationProperty" "NavigationProperty" (some EDM_NS)
                    [⟨none, "Name", "Name", "toB"⟩,
                     ⟨none, "Type", "Type", "Collection(NS.B)"⟩] .nil]),
               .mk "EntityType" "EntityType" (some EDM_NS)
                [⟨none, "Name", "Name", "B"⟩]
                (.ofList
                  [.mk "NavigationProperty" "NavigationProperty" (some EDM_NS)
                    [⟨none, "Name", "Name", "toA"⟩,
                     ⟨none, "Type", "Type", "NS.A"⟩] .nil])])])])


/-! ## Graph builder (`src/components/diagram.ts`)

The `while (queue.length > 0)` worklist loop is modelled as `bfsLoopF`, a
step-indexed (fuelled) loop; `bfsFuel` supplies enough fuel that the fuel
never runs out (proved as part of claim C1: adding fuel never changes the
result), so `buildGraph` computes exactly what the unbounded loop does. -/

/-- The node kind discriminant (`'entity' | 'complex'`). -/
inductive NodeKind where
  | entityKind
  | complexKind
deriving DecidableEq, Inhabited

/-- `DiagramNode`.  Coordinates and widths are exact rationals (all values
the code produces are dyadic, so `ℚ` models the float arithmetic exactly). -/
structure DiagramNode where
  id : String
  name : String
  displayName : String
  entity : Option ODataEntity
  complexType : Option ODataComplexType
  kind : NodeKind
  isRoot : Bool
  isSelected : Bool
  isExpanded : Bool
  relationshipCount : Nat
  collectionCount : Nat
  depth : Nat
  width : ℚ
  height : ℚ
  x : ℚ
  y : ℚ
deriving DecidableEq, Inhabited

/-- `DiagramLink` (`source`/`target` hold the node records). -/
structure DiagramLink where
  source : DiagramNode
  target : DiagramNode
  isCollection : Bool
  isNested : Bool
  navProperty : String
deriving DecidableEq, Inhabited

/-- `NODE_HEIGHT`. -/
def NODE_HEIGHT : ℚ := 28
/-- `NODE_PADDING`. -/
def NODE_PADDING : ℚ := 12
/-- `CHAR_WIDTH`. -/
def CHAR_WIDTH : ℚ := 7
/-- `LEVEL_HEIGHT`. -/
def LEVEL_HEIGHT : ℚ := 80
/-- `NODE_SPACING`. -/
def NODE_SPACING : ℚ := 20

/-- `calculateNodeWidth(name)`. -/
def calculateNodeWidth (name : String) : ℚ :=
  max 60 ((name.length : ℚ) * CHAR_WIDTH + NODE_PADDING * 2)

/-- The read-only inputs of one `buildGraph` call. -/
structure BuildCtx where
  rootEntity : ODataEntity
  selectedEntity : Option ODataEntity
  expandedNodes : Finset String
  metadata : ODataMetadata

/-- `entityMap` built in `renderGraph`: name-keyed map over `allEntities`. -/
def ctxEntityMap (ctx : BuildCtx) : List (String × ODataEntity) :=
  ctx.metadata.allEntities.map (fun e => (e.name, e))

/-- `complexTypeMap` built in `buildGraph`. -/
def ctxComplexMap (ctx : BuildCtx) : List (String × ODataComplexType) :=
  ctx.metadata.allComplexTypes.map (fun ct => (ct.name, ct))

/-- `getNestedCollections(props)`: the `(propName, typeName)` pairs of
properties that are collections of a known complex type. -/
def getNestedCollections (metadata : ODataMetadata) (props : List ODataProperty) :
    List (String × String) :=
  props.filterMap (fun prop =>
    match isComplexTypeCollection metadata prop.type with
    | (true, some typeName) => some (prop.name, typeName)
    | _ => none)

/-- A worklist entry: an entity or a complex type, with its BFS depth
(and, for complex types, the property it was reached through). -/
inductive QueueItem where
  | entityItem (e : ODataEntity) (depth : Nat)
  | complexItem (c : ODataComplexType) (depth : Nat) (parentProp : String)

/-- The identifier the visited-set tracks for a queue item. -/
def QueueItem.name : QueueItem → String
  | .entityItem e _ => e.name
  | .complexItem c _ _ => c.name

/-- The `DiagramNode` emitted for a dequeued entity. -/
def mkEntityNode (ctx : BuildCtx) (e : ODataEntity) (depth : Nat) : DiagramNode :=
  { id := e.name
    name := e.name
    displayName := e.name
    entity := some e
    complexType := none
    kind := .entityKind
    isRoot := decide (e.name = ctx.rootEntity.name)
    isSelected :=
      match ctx.selectedEntity with
      | some s => decide (s.name = e.name)
      | none => false
    isExpanded := decide (e.name ∈ ctx.expandedNodes)
    relationshipCount := e.navigationProperties.length
    collectionCount := (getNestedCollections ctx.metadata e.properties).length
    depth := depth
    width := calculateNodeWidth e.name
    height := NODE_HEIGHT
    x := 0
    y := 0 }

/-- The `DiagramNode` emitted for a dequeued complex type. -/
def mkComplexNode (ctx : BuildCtx) (c : ODataComplexType) (depth : Nat) :
    DiagramNode :=
  { id := c.name
    name := c.name
    displayName := stripCPrefix c.name
    entity := none
    complexType := some c
    kind := .complexKind
    isRoot := false
    isSelected := false
    isExpanded := decide (c.name ∈ ctx.expandedNodes)
    relationshipCount := c.navigationProperties.length
    collectionCount := (getNestedCollections ctx.metadata c.properties).length
    depth := depth
    width := calculateNodeWidth (stripCPrefix c.name)
    height := NODE_HEIGHT
    x := 0
    y := 0 }

/-- The loop pushing navigation-property targets (capped at `maxChildren`
pooled children; `count` is the running `childCount`).  Returns the pushed
items and the updated count. -/
def navChildren (ctx : BuildCtx) (visited : Finset String)
    (navs : List ODataNavigationProperty) (maxChildren count : Nat)
    (depth : Nat) : List QueueItem × Nat :=
  match navs with
  | [] => ([], count)
  | nav :: rest =>
    if maxChildren ≤ count then ([], count)
    else
      match mapGet (ctxEntityMap ctx) nav.targetEntity with
      | some t =>
        if nav.targetEntity ∈ visited then
          navChildren ctx visited rest maxChildren count depth
        else
          let r := navChildren ctx visited rest maxChildren (count + 1) depth
          (QueueItem.entityItem t depth :: r.1, r.2)
      | none => navChildren ctx visited rest maxChildren count depth

/-- The loop pushing nested complex-type collections. -/
def nestedChildren (ctx : BuildCtx) (visited : Finset String)
    (nested : List (String × String)) (maxChildren count : Nat)
    (depth : Nat) : List QueueItem × Nat :=
  match nested with
  | [] => ([], count)
  | nc :: rest =>
    if maxChildren ≤ count then ([], count)
    else
      match mapGet (ctxComplexMap ctx) nc.2 with
      | some ct =>
        if nc.2 ∈ visited then
          nestedChildren ctx visited rest maxChildren count depth
        else
          let r := nestedChildren ctx visited rest maxChildren (count + 1) depth
          (QueueItem.complexItem ct depth nc.1 :: r.1, r.2)
      | none => nestedChildren ctx visited rest maxChildren count depth

/-- Children pushed for a dequeued entity: navigation targets first, then
nested complex collections, pooled under the root/non-root cap. -/
def entityChildren (ctx : BuildCtx) (visited : Finset String) (e : ODataEntity)
    (depth : Nat) : List QueueItem :=
  let isRoot := decide (e.name = ctx.rootEntity.name)
  let isExpanded := decide (e.name ∈ ctx.expandedNodes)
  if isExpanded || isRoot then
    let maxChildren := if isRoot then 15 else 8
    let r1 := navChildren ctx visited e.navigationProperties maxChildren 0 (depth + 1)
    let r2 := nestedChildren ctx visited
      (getNestedCollections ctx.metadata e.properties) maxChildren r1.2 (depth + 1)
    r1.1 ++ r2.1
  else []

/-- Children pushed for a dequeued complex type: nested collections first,
then navigation targets, capped at 6. -/
def complexChildren (ctx : BuildCtx) (visited : Finset String)
    (c : ODataComplexType) (depth : Nat) : List QueueItem :=
  let isExpanded := decide (c.name ∈ ctx.expandedNodes)
  if isExpanded then
    let r1 := nestedChildren ctx visited
      (getNestedCollections ctx.metadata c.properties) 6 0 (depth + 1)
    let r2 := navChildren ctx visited c.navigationProperties 6 r1.2 (depth + 1)
    r1.1 ++ r2.1
  else []

/-- Every identifier the BFS can ever visit: the root plus all entity and
complex-type names. -/
def bfsUniv (ctx : BuildCtx) : Finset String :=
  insert ctx.rootEntity.name
    ((ctx.metadata.allEntities.map (·.name)).toFinset ∪
     (ctx.metadata.allComplexTypes.map (·.name)).toFinset)

/-- Loop variant: each iteration removes a queue entry and visits at most
one new identifier, pushing at most 15 children. -/
def bfsMeasure (ctx : BuildCtx) (queue : List QueueItem)
    (visited : Finset String) : Nat :=
  16 * ((bfsUniv ctx) \ visited).card + queue.length

/-- The worklist loop of `buildGraph`, step-indexed.  One fuel unit is one
iteration of the `while` loop; a dequeued identifier already in `visited`
is dropped, otherwise its node is emitted and (when root or expanded) its
children are appended to the queue. -/
def bfsLoopF (ctx : BuildCtx) :
    Nat → List QueueItem → Finset String → List DiagramNode → List DiagramNode
  | _, [], _, nodes => nodes
  | 0, _ :: _, _, nodes => nodes
  | fuel + 1, item :: rest, visited, nodes =>
    if item.name ∈ visited then bfsLoopF ctx fuel rest visited nodes
    else
      match item with
      | .entityItem e depth =>
        let visited' := insert e.name visited
        bfsLoopF ctx fuel (rest ++ entityChildren ctx visited' e depth) visited'
          (nodes ++ [mkEntityNode ctx e depth])
      | .complexItem c depth _ =>
        let visited' := insert c.name visited
        bfsLoopF ctx fuel (rest ++ complexChildren ctx visited' c depth) visited'
          (nodes ++ [mkComplexNode ctx c depth])

/-- Fuel that the loop provably never exhausts. -/
def bfsFuel (ctx : BuildCtx) : Nat := 16 * (bfsUniv ctx).card + 16

/-- `nodeMap.get`: the node registered under an identifier (identifiers are
unique in the emitted list, and the map is written in emission order). -/
def nodeMapGet (nodes : List DiagramNode) (k : String) : Option DiagramNode :=
  nodes.reverse.find? (fun n => n.id = k)

/-- `[a, b].sort().join('|')` — the unordered pair key used for link
deduplication. -/
def linkKey (a b : String) : String :=
  if a ≤ b then a ++ "|" ++ b else b ++ "|" ++ a

/-- Emit one candidate link from `node` to the node registered under
`targetName` (if any), skipping self links and already-seen pair keys.
`node.id` inequality coincides with the code's object-identity test
because emitted identifiers are unique. -/
def emitLink (nodes : List DiagramNode) (node : DiagramNode) (targetName : String)
    (isCol isNested : Bool) (label : String)
    (st : Finset String × List DiagramLink) : Finset String × List DiagramLink :=
  match nodeMapGet nodes targetName with
  | none => st
  | some targetNode =>
    if targetNode.id = node.id then st
    else
      let k := linkKey node.id targetNode.id
      if k ∈ st.1 then st
      else (insert k st.1,
        st.2 ++ [{ source := node, target := targetNode, isCollection := isCol,
                   isNested := isNested, navProperty := label }])

/-- The link-derivation body for one emitted node (only expanded or root
nodes contribute). -/
def linksForNode (ctx : BuildCtx) (nodes : List DiagramNode) (node : DiagramNode)
    (st : Finset String × List DiagramLink) : Finset String × List DiagramLink :=
  if node.isExpanded || node.isRoot then
    let navProps : List ODataNavigationProperty :=
      match node.kind with
      | .entityKind => (node.entity.map (fun e => e.navigationProperties)).getD []
      | .complexKind =>
        (node.complexType.map (fun c => c.navigationProperties)).getD []
    let props : List ODataProperty :=
      match node.kind with
      | .entityKind => (node.entity.map (fun e => e.properties)).getD []
      | .complexKind => (node.complexType.map (fun c => c.properties)).getD []
    let st1 := navProps.foldl
      (fun s nav => emitLink nodes node nav.targetEntity nav.isCollection false nav.name s)
      st
    (getNestedCollections ctx.metadata props).foldl
      (fun s nc => emitLink nodes node nc.2 true true nc.1 s) st1
  else st

/-- The second pass of `buildGraph`: derive the deduplicated link list. -/
def buildLinks (ctx : BuildCtx) (nodes : List DiagramNode) : List DiagramLink :=
  (nodes.foldl (fun st node => linksForNode ctx nodes node st) (∅, [])).2

/-- `buildGraph(rootEntity, selectedEntity, expandedNodes, entityMap, metadata)`. -/
def buildGraph (metadata : ODataMetadata) (rootEntity : ODataEntity)
    (selectedEntity : Option ODataEntity) (expandedNodes : Finset String) :
    List DiagramNode × List DiagramLink :=
  let ctx : BuildCtx := ⟨rootEntity, selectedEntity, expandedNodes, metadata⟩
  let nodes := bfsLoopF ctx (bfsFuel ctx) [QueueItem.entityItem rootEntity 0] ∅ []
  (nodes, buildLinks ctx nodes)

/-! ## Layout engine (`layoutNodes`)

The per-level cursor loop is written in explicit state-passing form: the
`k`-th node of a depth level sits at
`-total/2 + Σ_{earlier nodes of the level} (width + NODE_SPACING) + width/2`,
where `total` is the row width `Σ (width + NODE_SPACING) - NODE_SPACING`. -/

/-- `Σ (width + NODE_SPACING)` over the same-depth nodes before index `i`. -/
def levelOffsetBefore (nodes : List DiagramNode) (i : Nat) (d : Nat) : ℚ :=
  (((nodes.take i).filter (fun m => m.depth = d)).map
    (fun m => m.width + NODE_SPACING)).sum

/-- The `totalWidth` of a depth level (sum of widths plus inter-node gaps). -/
def levelTotal (nodes : List DiagramNode) (d : Nat) : ℚ :=
  ((nodes.filter (fun m => m.depth = d)).map
    (fun m => m.width + NODE_SPACING)).sum - NODE_SPACING

/-- Place the node at index `i`: the cursor starts at `-total/2` and has
advanced by `width + NODE_SPACING` for each earlier same-depth node. -/
def placeNode (nodes : List DiagramNode) (i : Nat) (n : DiagramNode) :
    DiagramNode :=
  { n with
    x := -(levelTotal nodes n.depth / 2) + levelOffsetBefore nodes i n.depth +
      n.width / 2
    y := (n.depth : ℚ) * LEVEL_HEIGHT }

/-- Index-tracking traversal applying `placeNode` to every node in order. -/
def layoutAux (nodes : List DiagramNode) : Nat → List DiagramNode → List DiagramNode
  | _, [] => []
  | i, n :: rest => placeNode nodes i n :: layoutAux nodes (i + 1) rest

/-- `layoutNodes(nodes)`: assign level-banded coordinates. -/
def layoutNodes (nodes : List DiagramNode) : List DiagramNode :=
  layoutAux nodes 0 nodes

/-! ## Concrete sample data (used by witness theorems) -/

/-- A navigation property literal. -/
def navPropLit (name type targetEntity : String) (isCollection : Bool) :
    ODataNavigationProperty :=
  { name := name, type := type, targetEntity := targetEntity
    isCollection := isCollection, partner := none, referentialConstraints := none }

/-- Entity `A` with a collection navigation to `B`. -/
def entA : ODataEntity :=
  { name := "A", fullName := "NS.A", namespaceName := "NS"
    properties := []
    navigationProperties := [navPropLit "toB" "Collection(NS.B)" "B" true]
    keyProperties := [], baseType := none }

/-- Entity `B` with a navigation back to `A` (reciprocal pair with `entA`). -/
def entB : ODataEntity :=
  { name := "B", fullName := "NS.B", namespaceName := "NS"
    properties := []
    navigationProperties := [navPropLit "toA" "NS.A" "A" false]
    keyProperties := [], baseType := none }

/-- Entity `C`, a second target of the root in the layout example. -/
def entC : ODataEntity :=
  { name := "C", fullName := "NS.C", namespaceName := "NS"
    properties := [], navigationProperties := [], keyProperties := []
    baseType := none }

/-- A cyclic two-entity document: `A -> B` and `B -> A`. -/
def mdAB : ODataMetadata :=
  { version := "4.0"
    schemas := [{ namespaceName := "NS", aliasName := none
                  entities := [entA, entB], complexTypes := [], enumTypes := [] }]
    allEntities := [entA, entB], allComplexTypes := [], allEnumTypes := [] }

/-- Root with two targets, giving two nodes at depth 1. -/
def entRoot2 : ODataEntity :=
  { name := "Root", fullName := "NS.Root", namespaceName := "NS"
    properties := []
    navigationProperties :=
      [navPropLit "toB" "NS.B" "B" false, navPropLit "toC" "NS.C" "C" false]
    keyProperties := [], baseType := none }

/-- A three-entity document used for the layout witness. -/
def mdRootBC : ODataMetadata :=
  { version := "4.0"
    schemas := [{ namespaceName := "NS", aliasName := none
                  entities := [entRoot2, entB, entC], complexTypes := []
                  enumTypes := [] }]
    allEntities := [entRoot2, entB, entC], allComplexTypes := [], allEnumTypes := [] }


/-! ## Specification-side definitions

These follow the wording of the spec/claims and are compared against the
definitions translated from the source. -/

/-- C3's failure condition: DOM parse error, root local name without
`edmx` (case-insensitive), or no `DataServices` element found. -/
def parseFailCond (doc : DomResult) : Prop :=
  match doc with
  | .error _ => True
  | .ok root =>
    jsIncludes (lowerStr root.localName) "edmx" = false ∨
    findElement root "DataServices" = none

/-- C5's match predicate, from the claim's field list: name; namespace;
full name; any property name; any property type string; any
navigation-property name; any navigation-property target name; any
key-property name; base type when present.  `q` is the trimmed,
lower-cased query. -/
def claimEntityMatch (entity : ODataEntity) (q : String) : Bool :=
  jsIncludes (lowerStr entity.name) q ||
  jsIncludes (lowerStr entity.namespaceName) q ||
  jsIncludes (lowerStr entity.fullName) q ||
  entity.properties.any (fun p => jsIncludes (lowerStr p.name) q) ||
  entity.properties.any (fun p => jsIncludes (lowerStr p.type) q) ||
  entity.navigationProperties.any (fun np => jsIncludes (lowerStr np.name) q) ||
  entity.navigationProperties.any
    (fun np => jsIncludes (lowerStr np.targetEntity) q) ||
  entity.keyProperties.any (fun k => jsIncludes (lowerStr k) q) ||
  (match entity.baseType with
   | some b => jsIncludes (lowerStr b) q
   | none => false)

/-- C6's match-hint categories, in the claim's priority order. -/
inductive MatchCategory where
  | propNameCat
  | propTypeCat
  | navNameCat
  | navTargetCat
  | namespaceCat
  | keyPropCat
deriving DecidableEq

/-- C6's category derivation, from the claim's words: no hint when the
entity name matches; otherwise the first matching category in the order
property name, property type, navigation name, navigation target,
namespace, key property. -/
def claimHintCategory (entity : ODataEntity) (query : String) :
    Option MatchCategory :=
  let q := lowerStr query
  if jsIncludes (lowerStr entity.name) q then none
  else if entity.properties.any (fun p => jsIncludes (lowerStr p.name) q) then
    some .propNameCat
  else if entity.properties.any (fun p => jsIncludes (lowerStr p.type) q) then
    some .propTypeCat
  else if entity.navigationProperties.any
      (fun np => jsIncludes (lowerStr np.name) q) then some .navNameCat
  else if entity.navigationProperties.any
      (fun np => jsIncludes (lowerStr np.targetEntity) q) then some .navTargetCat
  else if jsIncludes (lowerStr entity.namespaceName) q then some .namespaceCat
  else if entity.keyProperties.any (fun k => jsIncludes (lowerStr k) q) then
    some .keyPropCat
  else none

/-- The hint text the sidebar renders for each category (first matching
element of the category, formatted as in the source). -/
def categoryHintText (entity : ODataEntity) (query : String) :
    MatchCategory → String :=
  let q := lowerStr query
  fun cat =>
    match cat with
    | .propNameCat =>
      ((entity.properties.find? (fun p => jsIncludes (lowerStr p.name) q)).map
        (fun p => "prop: " ++ p.name)).getD ""
    | .propTypeCat =>
      ((entity.properties.find? (fun p => jsIncludes (lowerStr p.type) q)).map
        (fun p => "type: " ++ jsStripFirst p.type "Edm.")).getD ""
    | .navNameCat =>
      ((entity.navigationProperties.find?
          (fun np => jsIncludes (lowerStr np.name) q)).map
        (fun np => "nav: " ++ np.name)).getD ""
    | .navTargetCat =>
      ((entity.navigationProperties.find?
          (fun np => jsIncludes (lowerStr np.targetEntity) q)).map
        (fun np => "→ " ++ np.targetEntity)).getD ""
    | .namespaceCat => "ns: " ++ entity.namespaceName
    | .keyPropCat =>
      ((entity.keyProperties.find? (fun k => jsIncludes (lowerStr k) q)).map
        (fun k => "key: " ++ k)).getD ""

/-- A breadcrumb step literal used in the C2 counterexample state. -/
def pathStepEx : NavigationPathStep :=
  { kind := .complexPath, typeName := "c_Relate", propertyName := "relates"
    displayName := "Relate" }

/-- A fully populated store state (document loaded, selection, search,
drill-down, error, loading all non-initial). -/
def stateEx : AppState :=
  { metadata := some mdAB
    selectedEntity := some entA
    searchQuery := "orders"
    error := some "previous error"
    loading := true
    collapsedNamespaces := {"NS"}
    diagramRootEntity := some entA
    diagramExpandedNodes := {"A"}
    navigationPath := [pathStepEx] }

/-- The root-element-is-not-Edmx document of end-to-end scenario 3. -/
def fooDoc : XmlElement := .mk "Foo" "Foo" none [] .nil

/-- Navigation-property element with the degenerate raw type
`Collection()` (C4 counterexample input). -/
def navEl0 : XmlElement :=
  .mk "NavigationProperty" "NavigationProperty" (some EDM_NS)
    [⟨none, "Name", "Name", "Items"⟩, ⟨none, "Type", "Type", "Collection()"⟩] .nil

/-- Navigation-property element with a well-formed collection type (C4
witness input). -/
def navEl1 : XmlElement :=
  .mk "NavigationProperty" "NavigationProperty" (some EDM_NS)
    [⟨none, "Name", "Name", "Orders"⟩,
     ⟨none, "Type", "Type", "Collection(NS.Order)"⟩] .nil

/-- Entity matched by the search only through its base type (C10). -/
def entBase : ODataEntity :=
  { name := "Customer", fullName := "NS.Customer", namespaceName := "NS"
    properties := [], navigationProperties := [], keyProperties := []
    baseType := some "Other.Zebra" }

/-- Document containing only `entBase` (C10). -/
def mdBase : ODataMetadata :=
  { version := "4.0"
    schemas := [{ namespaceName := "NS", aliasName := none
                  entities := [entBase], complexTypes := [], enumTypes := [] }]
    allEntities := [entBase], allComplexTypes := [], allEnumTypes := [] }

/-- Entity whose only query match is a property type (C6 witness). -/
def entGuid : ODataEntity :=
  { name := "Customer", fullName := "NS.Customer", namespaceName := "NS"
    properties :=
      [{ name := "Id", type := "Edm.Guid", nullable := false, isKey := true
         maxLength := none, precision := none, scale := none }]
    navigationProperties := [], keyProperties := ["Id"], baseType := none }

/-! ## Helper lemmas -/

theorem flatMap_length {α β : Type} (f : α → List β) (l : List α) :
    (l.flatMap f).length = (l.map (fun a => (f a).length)).sum := by
  induction l with
  | nil => rfl
  | cons a t ih => simp [ih]

theorem filterMap_if_length {α β : Type} (g : α → β) (p : α → Prop)
    [DecidablePred p] (l : List α) :
    (l.filterMap (fun a => if p a then some (g a) else none)).length =
      (l.filter (fun a => decide (p a))).length := by
  induction l with
  | nil => rfl
  | cons a t ih =>
    by_cases h : p a <;> simp [List.filterMap_cons, List.filter_cons, h, ih]

/-! ## Claim theorems -/

/-- **C2, counterexample.**  The load-metadata transition is claimed to
reset *every* other state field to its initial empty value; but on a state
with a non-empty search query, navigation path and loading flag, all three
survive `setMetadata` unchanged. -/
theorem C2_counterexample :
    (setMetadata stateEx (some mdRootBC)).searchQuery ≠ "" ∧
    (setMetadata stateEx (some mdRootBC)).navigationPath ≠ [] ∧
    (setMetadata stateEx (some mdRootBC)).loading ≠ false := by
  refine ⟨by decide, by decide, by decide⟩

/-- **C2, amended.**  `setMetadata` replaces the metadata wholesale and
resets `selectedEntity`, `error`, the collapsed-namespace set, the diagram
root and the expanded-node set to empty/none, while `searchQuery`,
`navigationPath` and `loading` are carried over from the previous state
(they are *not* reset). -/
theorem C2_setMetadata_frame (st : AppState) (md : Option ODataMetadata) :
    (setMetadata st md).metadata = md ∧
    (setMetadata st md).selectedEntity = none ∧
    (setMetadata st md).error = none ∧
    (setMetadata st md).collapsedNamespaces = ∅ ∧
    (setMetadata st md).diagramRootEntity = none ∧
    (setMetadata st md).diagramExpandedNodes = ∅ ∧
    (setMetadata st md).searchQuery = st.searchQuery ∧
    (setMetadata st md).navigationPath = st.navigationPath ∧
    (setMetadata st md).loading = st.loading :=
  ⟨rfl, rfl, rfl, rfl, rfl, rfl, rfl, rfl, rfl⟩

/-- **C8.**  Every edge of `extractRelationships` targets a known entity
name (unresolvable navigations are silently dropped), and no deduplication
happens: the edge count is exactly the number of navigation properties
whose target resolves, so a reciprocal pair contributes two directed
edges. -/
theorem C8_extract_resolved_no_dedup (md : ODataMetadata) :
    (∀ r ∈ extractRelationships md,
      r.targetEntity ∈ md.allEntities.map ODataEntity.name) ∧
    (extractRelationships md).length =
      (md.allEntities.map (fun e => (e.navigationProperties.filter
        (fun np =>
          decide (np.targetEntity ∈ md.allEntities.map ODataEntity.name))).length)).sum := by
  constructor
  · intro r hr
    simp only [extractRelationships, List.mem_flatMap, List.mem_filterMap] at hr
    obtain ⟨e, _, np, _, heq⟩ := hr
    split at heq
    · cases heq
      assumption
    · cases heq
  · simp only [extractRelationships, flatMap_length, filterMap_if_length]

/-- **C8, witness.**  In the cyclic two-entity document the reciprocal pair
produces the `A -> B` edge (and the target is a known entity). -/
theorem C8_witness :
    (⟨"A", "B", "toB", true⟩ : EntityRelationship) ∈ extractRelationships mdAB ∧
    "B" ∈ mdAB.allEntities.map ODataEntity.name :=
  ⟨by decide, (C8_extract_resolved_no_dedup mdAB).1 ⟨"A", "B", "toB", true⟩ (by decide)⟩

/-- **C10.**  An entity matched by the search only through its base type is
listed in the filtered results, while its own name does not contain the
query and match-hint derivation returns no hint (hint derivation inspects
neither `fullName` nor `baseType`). -/
theorem C10_filtered_without_hint :
    entBase ∈ getFilteredEntities (some mdBase) "zebra" ∧
    jsIncludes (lowerStr entBase.name) (lowerStr "zebra") = false ∧
    getMatchHint entBase "zebra" = none :=
  ⟨by decide, by decide, by decide⟩

/-- **C4, counterexample.**  For the raw type `Collection()` (which begins
with `Collection(` and whose parenthesized content is empty), the claim
predicts `targetEntity = ""` — the last dot-segment of the empty content —
but the regex `Collection\((.+)\)` does not match, and the code falls back
to the whole raw string: `targetEntity = "Collection()"`. -/
theorem C4_counterexample :
    startsWithStr (parseNavigationProperty navEl0).type "Collection(" = true ∧
    (parseNavigationProperty navEl0).isCollection = true ∧
    (parseNavigationProperty navEl0).targetEntity ≠ lastSegment "" := by
  refine ⟨by decide, by decide, by decide⟩

/-- **C4, amended.**  For every parsed navigation property: the raw type is
preserved unchanged in `type`; a raw type not beginning with `Collection(`
gives a non-collection whose target is the last dot-segment of the raw
type; a raw type beginning with `Collection(` gives a collection whose
target is the last dot-segment of the regex-extracted parenthesized
content when `Collection\((.+)\)` matches, and of the whole raw string
otherwise. -/
theorem C4_nav_target_resolution (navEl : XmlElement) :
    (parseNavigationProperty navEl).type = jsOr (navEl.getAttribute "Type") "" ∧
    (startsWithStr (parseNavigationProperty navEl).type "Collection(" = false →
      (parseNavigationProperty navEl).isCollection = false ∧
      (parseNavigationProperty navEl).targetEntity =
        lastSegment (parseNavigationProperty navEl).type) ∧
    (startsWithStr (parseNavigationProperty navEl).type "Collection(" = true →
      (parseNavigationProperty navEl).isCollection = true ∧
      (parseNavigationProperty navEl).targetEntity =
        lastSegment ((ctMatch (parseNavigationProperty navEl).type).getD
          (parseNavigationProperty navEl).type)) := by
  refine ⟨rfl, fun h => ?_, fun h => ?_⟩
  · simp only [parseNavigationProperty] at h ⊢
    simp [h]
  · simp only [parseNavigationProperty] at h ⊢
    simp only [h, if_true]
    cases hm : ctMatch (jsOr (navEl.getAttribute "Type") "") <;>
      simp [hm, Option.getD]

/-- **C4, witness.**  The well-formed `Collection(NS.Order)` resolves to
the last dot-segment `Order` of the parenthesized content. -/
theorem C4_witness :
    startsWithStr (parseNavigationProperty navEl1).type "Collection(" = true ∧
    ((parseNavigationProperty navEl1).isCollection = true ∧
      (parseNavigationProperty navEl1).targetEntity =
        lastSegment ((ctMatch (parseNavigationProperty navEl1).type).getD
          (parseNavigationProperty navEl1).type)) :=
  ⟨by decide, (C4_nav_target_resolution navEl1).2.2 (by decide)⟩

theorem any_eq_find?_isSome {α : Type} (p : α → Bool) (l : List α) :
    l.any p = (l.find? p).isSome := by
  induction l with
  | nil => rfl
  | cons a t ih => by_cases h : p a <;> simp [h, ih]

/-- **C3.**  `parseODataMetadata` fails exactly when the input is not
well-formed XML (a `DOMParser` error), the root's local name does not
contain `edmx` case-insensitively, or no `DataServices` element is found;
and whenever it fails, `handleParse` leaves the store's metadata untouched
and publishes the thrown message as the error. -/
theorem C3_parse_failure_contract (doc : DomResult) (st : AppState) :
    ((∃ msg, parseODataMetadata doc = .error msg) ↔ parseFailCond doc) ∧
    (∀ msg, parseODataMetadata doc = .error msg →
      (handleParse st doc).metadata = st.metadata ∧
      (handleParse st doc).error = some msg) := by
  constructor
  · cases doc with
    | error txt => simp [parseODataMetadata, parseFailCond]
    | ok root =>
      cases hinc : jsIncludes (lowerStr root.localName) "edmx" with
      | false => simp [parseODataMetadata, parseFailCond, hinc]
      | true =>
        cases hf : findElement root "DataServices" with
        | none => simp [parseODataMetadata, parseFailCond, hinc, hf]
        | some ds => simp [parseODataMetadata, parseFailCond, hinc, hf]
  · intro msg hmsg
    simp only [handleParse, hmsg]
    exact ⟨rfl, rfl⟩

/-- **C3, witness.**  A document whose root is `<Foo/>` fails with the
structural message, and the store state keeps its previously loaded
metadata while the error is published. -/
theorem C3_witness :
    parseODataMetadata (.ok fooDoc) =
      .error "Invalid OData metadata: Root element must be Edmx" ∧
    (handleParse stateEx (.ok fooDoc)).metadata = stateEx.metadata ∧
    (handleParse stateEx (.ok fooDoc)).error =
      some "Invalid OData metadata: Root element must be Edmx" :=
  ⟨rfl, (C3_parse_failure_contract (.ok fooDoc) stateEx).2 _ rfl⟩

/-- **C5.**  The filter works on the trimmed, lower-cased query: an empty
trimmed query returns `allEntities` unchanged; otherwise the result is the
order-preserving sublist of exactly the entities satisfying the claim's
nine-field match predicate. -/
theorem C5_filter_contract (md : ODataMetadata) (searchQuery : String) :
    (getFilteredEntities (some md) searchQuery).Sublist md.allEntities ∧
    (trimStr (lowerStr searchQuery) = "" →
      getFilteredEntities (some md) searchQuery = md.allEntities) ∧
    (trimStr (lowerStr searchQuery) ≠ "" →
      getFilteredEntities (some md) searchQuery =
        md.allEntities.filter
          (fun e => claimEntityMatch e (trimStr (lowerStr searchQuery)))) := by
  refine ⟨?_, fun h => ?_, fun h => ?_⟩
  · by_cases h : trimStr (lowerStr searchQuery) = ""
    · simp [getFilteredEntities, h]
    · simp only [getFilteredEntities, h, if_false]
      exact List.filter_sublist _
  · simp [getFilteredEntities, h]
  · simp only [getFilteredEntities, h, if_false]
    rfl

/-- **C5, witness.**  A non-blank query goes through the filter branch. -/
theorem C5_witness :
    trimStr (lowerStr " Ord ") ≠ "" ∧
    getFilteredEntities (some mdAB) " Ord " =
      mdAB.allEntities.filter
        (fun e => claimEntityMatch e (trimStr (lowerStr " Ord "))) :=
  ⟨by decide, (C5_filter_contract mdAB " Ord ").2.2 (by decide)⟩

/-- **C6.**  For a non-empty query, the hint is suppressed whenever the
entity's own name matches, and otherwise reports exactly the first
matching category in the order property name, property type, navigation
name, navigation target, namespace, key property. -/
theorem C6_hint_priority (entity : ODataEntity) (query : String)
    (hq : ¬ query = "") :
    (jsIncludes (lowerStr entity.name) (lowerStr query) = true →
      getMatchHint entity query = none) ∧
    getMatchHint entity query =
      (claimHintCategory entity query).map (categoryHintText entity query) := by
  constructor
  · intro h
    simp [getMatchHint, hq, h]
  · by_cases hname : jsIncludes (lowerStr entity.name) (lowerStr query) = true
    · simp [getMatchHint, claimHintCategory, hq, hname]
    · rw [Bool.not_eq_true] at hname
      cases h1 : entity.properties.find?
          (fun p => jsIncludes (lowerStr p.name) (lowerStr query)) with
      | some p =>
        simp [getMatchHint, claimHintCategory, categoryHintText, hq, hname,
          any_eq_find?_isSome, h1]
      | none =>
        cases h2 : entity.properties.find?
            (fun p => jsIncludes (lowerStr p.type) (lowerStr query)) with
        | some p =>
          simp [getMatchHint, claimHintCategory, categoryHintText, hq, hname,
            any_eq_find?_isSome, h1, h2]
        | none =>
          cases h3 : entity.navigationProperties.find?
              (fun np => jsIncludes (lowerStr np.name) (lowerStr query)) with
          | some np =>
            simp [getMatchHint, claimHintCategory, categoryHintText, hq, hname,
              any_eq_find?_isSome, h1, h2, h3]
          | none =>
            cases h4 : entity.navigationProperties.find?
                (fun np => jsIncludes (lowerStr np.targetEntity) (lowerStr query)) with
            | some np =>
              simp [getMatchHint, claimHintCategory, categoryHintText, hq, hname,
                any_eq_find?_isSome, h1, h2, h3, h4]
            | none =>
              by_cases h5 : jsIncludes (lowerStr entity.namespaceName) (lowerStr query) = true
              · simp [getMatchHint, claimHintCategory, categoryHintText, hq, hname,
                  any_eq_find?_isSome, h1, h2, h3, h4, h5]
              · rw [Bool.not_eq_true] at h5
                cases h6 : entity.keyProperties.find?
                    (fun k => jsIncludes (lowerStr k) (lowerStr query)) with
                | some k =>
                  simp [getMatchHint, claimHintCategory, categoryHintText, hq, hname,
                    any_eq_find?_isSome, h1, h2, h3, h4, h5, h6]
                | none =>
                  simp [getMatchHint, claimHintCategory, categoryHintText, hq, hname,
                    any_eq_find?_isSome, h1, h2, h3, h4, h5, h6]

/-- **C6, witness.**  Query `guid` against an entity whose only match is a
property of type `Edm.Guid`. -/
theorem C6_witness :
    (jsIncludes (lowerStr entGuid.name) (lowerStr "guid") = true →
      getMatchHint entGuid "guid" = none) ∧
    getMatchHint entGuid "guid" =
      (claimHintCategory entGuid "guid").map (categoryHintText entGuid "guid") :=
  C6_hint_priority entGuid "guid" (by decide)

/-! ## Graph-builder lemmas -/

theorem mapGet_of_name_map {α : Type} (f : α → String) (l : List α) (k : String)
    (t : α) (h : mapGet (l.map fun a => (f a, a)) k = some t) :
    t ∈ l ∧ f t = k := by
  unfold mapGet at h
  cases hfind : (l.map fun a => (f a, a)).reverse.find? (fun p => p.1 = k) with
  | none => rw [hfind] at h; cases h
  | some p =>
    rw [hfind] at h
    have hmem := List.mem_of_find?_eq_some hfind
    have hpred := List.find?_some hfind
    rw [List.mem_reverse, List.mem_map] at hmem
    obtain ⟨a, ha, rfl⟩ := hmem
    simp only [decide_eq_true_eq] at hpred
    cases h
    exact ⟨ha, hpred⟩

theorem entity_name_mem_univ (ctx : BuildCtx) (t : ODataEntity)
    (h : t ∈ ctx.metadata.allEntities) : t.name ∈ bfsUniv ctx := by
  simp only [bfsUniv, Finset.mem_insert, Finset.mem_union, List.mem_toFinset,
    List.mem_map]
  exact Or.inr (Or.inl ⟨t, h, rfl⟩)

theorem complex_name_mem_univ (ctx : BuildCtx) (t : ODataComplexType)
    (h : t ∈ ctx.metadata.allComplexTypes) : t.name ∈ bfsUniv ctx := by
  simp only [bfsUniv, Finset.mem_insert, Finset.mem_union, List.mem_toFinset,
    List.mem_map]
  exact Or.inr (Or.inr ⟨t, h, rfl⟩)

theorem navChildren_spec (ctx : BuildCtx) (visited : Finset String)
    (depth : Nat) (maxChildren : Nat) :
    ∀ (navs : List ODataNavigationProperty) (count : Nat), count ≤ maxChildren →
      (navChildren ctx visited navs maxChildren count depth).2 =
        count + (navChildren ctx visited navs maxChildren count depth).1.length ∧
      (navChildren ctx visited navs maxChildren count depth).2 ≤ maxChildren := by
  intro navs
  induction navs with
  | nil => intro count h; simp [navChildren, h]
  | cons nav rest ih =>
    intro count h
    by_cases hc : maxChildren ≤ count
    · simp [navChildren, hc, h]
    · simp only [navChildren, hc, if_false]
      cases hg : mapGet (ctxEntityMap ctx) nav.targetEntity with
      | none => exact ih count h
      | some t =>
        by_cases hv : nav.targetEntity ∈ visited
        · simp only [hv, if_true]
          exact ih count h
        · simp only [hv, if_false]
          have := ih (count + 1) (by omega)
          simp only [List.length_cons]
          omega

theorem nestedChildren_spec (ctx : BuildCtx) (visited : Finset String)
    (depth : Nat) (maxChildren : Nat) :
    ∀ (nested : List (String × String)) (count : Nat), count ≤ maxChildren →
      (nestedChildren ctx visited nested maxChildren count depth).2 =
        count + (nestedChildren ctx visited nested maxChildren count depth).1.length ∧
      (nestedChildren ctx visited nested maxChildren count depth).2 ≤ maxChildren := by
  intro nested
  induction nested with
  | nil => intro count h; simp [nestedChildren, h]
  | cons nc rest ih =>
    intro count h
    by_cases hc : maxChildren ≤ count
    · simp [nestedChildren, hc, h]
    · simp only [nestedChildren, hc, if_false]
      cases hg : mapGet (ctxComplexMap ctx) nc.2 with
      | none => exact ih count h
      | some t =>
        by_cases hv : nc.2 ∈ visited
        · simp only [hv, if_true]
          exact ih count h
        · simp only [hv, if_false]
          have := ih (count + 1) (by omega)
          simp only [List.length_cons]
          omega

theorem entityChildren_length (ctx : BuildCtx) (visited : Finset String)
    (e : ODataEntity) (depth : Nat) :
    (entityChildren ctx visited e depth).length ≤ 15 := by
  simp only [entityChildren]
  split
  · set maxChildren := if decide (e.name = ctx.rootEntity.name) = true then 15 else 8 with hmax
    have hm15 : maxChildren ≤ 15 := by
      rw [hmax]; split <;> omega
    have h1 := navChildren_spec ctx visited (depth + 1) maxChildren
      e.navigationProperties 0 (by omega)
    have h2 := nestedChildren_spec ctx visited (depth + 1) maxChildren
      (getNestedCollections ctx.metadata e.properties)
      (navChildren ctx visited e.navigationProperties maxChildren 0 (depth + 1)).2
      h1.2
    simp only [List.length_append]
    omega
  · simp

theorem complexChildren_length (ctx : BuildCtx) (visited : Finset String)
    (c : ODataComplexType) (depth : Nat) :
    (complexChildren ctx visited c depth).length ≤ 15 := by
  simp only [complexChildren]
  split
  · have h1 := nestedChildren_spec ctx visited (depth + 1) 6
      (getNestedCollections ctx.metadata c.properties) 0 (by omega)
    have h2 := navChildren_spec ctx visited (depth + 1) 6
      c.navigationProperties
      (nestedChildren ctx visited (getNestedCollections ctx.metadata c.properties)
        6 0 (depth + 1)).2
      h1.2
    simp only [List.length_append]
    omega
  · simp

theorem navChildren_mem_univ (ctx : BuildCtx) (visited : Finset String)
    (depth : Nat) (maxChildren : Nat) :
    ∀ (navs : List ODataNavigationProperty) (count : Nat),
      ∀ i ∈ (navChildren ctx visited navs maxChildren count depth).1,
        i.name ∈ bfsUniv ctx := by
  intro navs
  induction navs with
  | nil => intro count i hi; simp [navChildren] at hi
  | cons nav rest ih =>
    intro count i hi
    by_cases hc : maxChildren ≤ count
    · simp [navChildren, hc] at hi
    · simp only [navChildren, hc, if_false] at hi
      cases hg : mapGet (ctxEntityMap ctx) nav.targetEntity with
      | none =>
        rw [hg] at hi
        exact ih count i hi
      | some t =>
        rw [hg] at hi
        by_cases hv : nav.targetEntity ∈ visited
        · simp only [hv, if_true] at hi
          exact ih count i hi
        · simp only [hv, if_false, List.mem_cons] at hi
          cases hi with
          | inl h =>
            subst h
            exact entity_name_mem_univ ctx t
              (mapGet_of_name_map ODataEntity.name _ _ t hg).1
          | inr h => exact ih (count + 1) i h

theorem nestedChildren_mem_univ (ctx : BuildCtx) (visited : Finset String)
    (depth : Nat) (maxChildren : Nat) :
    ∀ (nested : List (String × String)) (count : Nat),
      ∀ i ∈ (nestedChildren ctx visited nested maxChildren count depth).1,
        i.name ∈ bfsUniv ctx := by
  intro nested
  induction nested with
  | nil => intro count i hi; simp [nestedChildren] at hi
  | cons nc rest ih =>
    intro count i hi
    by_cases hc : maxChildren ≤ count
    · simp [nestedChildren, hc] at hi
    · simp only [nestedChildren, hc, if_false] at hi
      cases hg : mapGet (ctxComplexMap ctx) nc.2 with
      | none =>
        rw [hg] at hi
        exact ih count i hi
      | some t =>
        rw [hg] at hi
        by_cases hv : nc.2 ∈ visited
        · simp only [hv, if_true] at hi
          exact ih count i hi
        · simp only [hv, if_false, List.mem_cons] at hi
          cases hi with
          | inl h =>
            subst h
            exact complex_name_mem_univ ctx t
              (mapGet_of_name_map ODataComplexType.name _ _ t hg).1
          | inr h => exact ih (count + 1) i h

theorem entityChildren_mem_univ (ctx : BuildCtx) (visited : Finset String)
    (e : ODataEntity) (depth : Nat) :
    ∀ i ∈ entityChildren ctx visited e depth, i.name ∈ bfsUniv ctx := by
  intro i hi
  simp only [entityChildren] at hi
  split at hi
  · rw [List.mem_append] at hi
    cases hi with
    | inl h => exact navChildren_mem_univ ctx visited (depth + 1) _ _ _ i h
    | inr h => exact nestedChildren_mem_univ ctx visited (depth + 1) _ _ _ i h
  · simp at hi

theorem complexChildren_mem_univ (ctx : BuildCtx) (visited : Finset String)
    (c : ODataComplexType) (depth : Nat) :
    ∀ i ∈ complexChildren ctx visited c depth, i.name ∈ bfsUniv ctx := by
  intro i hi
  simp only [complexChildren] at hi
  split at hi
  · rw [List.mem_append] at hi
    cases hi with
    | inl h => exact nestedChildren_mem_univ ctx visited (depth + 1) _ _ _ i h
    | inr h => exact navChildren_mem_univ ctx visited (depth + 1) _ _ _ i h
  · simp at hi

theorem card_sdiff_insert_succ (univ visited : Finset String) (a : String)
    (ha : a ∈ univ) (hv : a ∉ visited) :
    (univ \ insert a visited).card + 1 = (univ \ visited).card := by
  have heq : univ \ insert a visited = (univ \ visited).erase a := by
    ext x
    simp only [Finset.mem_sdiff, Finset.mem_erase, Finset.mem_insert]
    tauto
  have hmem : a ∈ univ \ visited := Finset.mem_sdiff.2 ⟨ha, hv⟩
  rw [heq, Finset.card_erase_of_mem hmem]
  have : 0 < (univ \ visited).card := Finset.card_pos.2 ⟨a, hmem⟩
  omega

theorem bfsLoopF_succ_eq (ctx : BuildCtx) (fuel : Nat) :
    ∀ (queue : List QueueItem) (visited : Finset String)
      (nodes : List DiagramNode),
      (∀ i ∈ queue, i.name ∈ bfsUniv ctx) →
      bfsMeasure ctx queue visited ≤ fuel →
      bfsLoopF ctx (fuel + 1) queue visited nodes =
        bfsLoopF ctx fuel queue visited nodes := by
  induction fuel with
  | zero =>
    intro queue visited nodes _ hm
    cases queue with
    | nil => rfl
    | cons a t =>
      exfalso
      simp only [bfsMeasure, List.length_cons] at hm
      omega
  | succ fuel ih =>
    intro queue visited nodes hq hm
    cases queue with
    | nil => rfl
    | cons item rest =>
      have hmem : item.name ∈ bfsUniv ctx := hq item (List.mem_cons_self item rest)
      by_cases hv : item.name ∈ visited
      · simp only [bfsLoopF, hv, if_true]
        refine ih rest visited nodes (fun i hi => hq i (List.mem_cons_of_mem _ hi)) ?_
        simp only [bfsMeasure, List.length_cons] at hm ⊢
        omega
      · have hcard := card_sdiff_insert_succ (bfsUniv ctx) visited item.name hmem hv
        cases item with
        | entityItem e depth =>
          simp only [bfsLoopF, hv, if_false]
          refine ih _ _ _ ?_ ?_
          · intro i hi
            rw [List.mem_append] at hi
            cases hi with
            | inl h => exact hq i (List.mem_cons_of_mem _ h)
            | inr h => exact entityChildren_mem_univ ctx _ e depth i h
          · have hlen := entityChildren_length ctx (insert e.name visited) e depth
            simp only [bfsMeasure, List.length_cons, List.length_append] at hm ⊢
            simp only [QueueItem.name] at hcard
            omega
        | complexItem c depth pp =>
          simp only [bfsLoopF, hv, if_false]
          refine ih _ _ _ ?_ ?_
          · intro i hi
            rw [List.mem_append] at hi
            cases hi with
            | inl h => exact hq i (List.mem_cons_of_mem _ h)
            | inr h => exact complexChildren_mem_univ ctx _ c depth i h
          · have hlen := complexChildren_length ctx (insert c.name visited) c depth
            simp only [bfsMeasure, List.length_cons, List.length_append] at hm ⊢
            simp only [QueueItem.name] at hcard
            omega

theorem bfsLoopF_stable (ctx : BuildCtx) (fuel extra : Nat)
    (queue : List QueueItem) (visited : Finset String) (nodes : List DiagramNode)
    (hq : ∀ i ∈ queue, i.name ∈ bfsUniv ctx)
    (hm : bfsMeasure ctx queue visited ≤ fuel) :
    bfsLoopF ctx (fuel + extra) queue visited nodes =
      bfsLoopF ctx fuel queue visited nodes := by
  induction extra with
  | zero => rfl
  | succ k ih =>
    rw [Nat.add_succ]
    rw [bfsLoopF_succ_eq ctx (fuel + k) queue visited nodes hq
      (le_trans hm (Nat.le_add_right fuel k))]
    exact ih

theorem bfsLoopF_append (ctx : BuildCtx) (fuel : Nat) :
    ∀ (queue : List QueueItem) (visited : Finset String)
      (nodes : List DiagramNode),
      ∃ t, bfsLoopF ctx fuel queue visited nodes = nodes ++ t := by
  induction fuel with
  | zero =>
    intro queue visited nodes
    cases queue <;> exact ⟨[], by simp [bfsLoopF]⟩
  | succ fuel ih =>
    intro queue visited nodes
    cases queue with
    | nil => exact ⟨[], by simp [bfsLoopF]⟩
    | cons item rest =>
      by_cases hv : item.name ∈ visited
      · simp only [bfsLoopF, hv, if_true]
        exact ih rest visited nodes
      · cases item with
        | entityItem e depth =>
          simp only [bfsLoopF, hv, if_false]
          obtain ⟨t, ht⟩ := ih (rest ++ entityChildren ctx (insert e.name visited) e depth)
            (insert e.name visited) (nodes ++ [mkEntityNode ctx e depth])
          exact ⟨mkEntityNode ctx e depth :: t, by rw [ht]; simp⟩
        | complexItem c depth pp =>
          simp only [bfsLoopF, hv, if_false]
          obtain ⟨t, ht⟩ := ih (rest ++ complexChildren ctx (insert c.name visited) c depth)
            (insert c.name visited) (nodes ++ [mkComplexNode ctx c depth])
          exact ⟨mkComplexNode ctx c depth :: t, by rw [ht]; simp⟩

theorem bfsLoopF_nodup (ctx : BuildCtx) (fuel : Nat) :
    ∀ (queue : List QueueItem) (visited : Finset String)
      (nodes : List DiagramNode),
      (nodes.map DiagramNode.id).Nodup →
      (∀ n ∈ nodes, n.id ∈ visited) →
      ((bfsLoopF ctx fuel queue visited nodes).map DiagramNode.id).Nodup := by
  induction fuel with
  | zero =>
    intro queue visited nodes hnd _
    cases queue <;> simpa [bfsLoopF] using hnd
  | succ fuel ih =>
    intro queue visited nodes hnd hsub
    cases queue with
    | nil => simpa [bfsLoopF] using hnd
    | cons item rest =>
      by_cases hv : item.name ∈ visited
      · simp only [bfsLoopF, hv, if_true]
        exact ih rest visited nodes hnd hsub
      · have hnotin : item.name ∉ nodes.map DiagramNode.id := by
          intro hmem
          rw [List.mem_map] at hmem
          obtain ⟨n, hn, hid⟩ := hmem
          exact hv (hid ▸ hsub n hn)
        cases item with
        | entityItem e depth =>
          simp only [bfsLoopF, hv, if_false]
          refine ih _ _ _ ?_ ?_
          · simp only [List.map_append, List.map_cons, List.map_nil]
            rw [List.nodup_append]
            refine ⟨hnd, List.nodup_singleton _, ?_⟩
            intro a ha hb
            simp only [List.mem_singleton] at hb
            subst hb
            exact hnotin ha
          · intro n hn
            rw [List.mem_append] at hn
            cases hn with
            | inl h => exact Finset.mem_insert_of_mem (hsub n h)
            | inr h =>
              simp only [List.mem_singleton] at h
              subst h
              exact Finset.mem_insert_self _ _
        | complexItem c depth pp =>
          simp only [bfsLoopF, hv, if_false]
          refine ih _ _ _ ?_ ?_
          · simp only [List.map_append, List.map_cons, List.map_nil]
            rw [List.nodup_append]
            refine ⟨hnd, List.nodup_singleton _, ?_⟩
            intro a ha hb
            simp only [List.mem_singleton] at hb
            subst hb
            exact hnotin ha
          · intro n hn
            rw [List.mem_append] at hn
            cases hn with
            | inl h => exact Finset.mem_insert_of_mem (hsub n h)
            | inr h =>
              simp only [List.mem_singleton] at h
              subst h
              exact Finset.mem_insert_self _ _

/-- Every node the BFS emits is the node record built for some dequeued
entity or complex type. -/
def NodeFromBuild (ctx : BuildCtx) (n : DiagramNode) : Prop :=
  (∃ e depth, n = mkEntityNode ctx e depth) ∨
  (∃ c depth, n = mkComplexNode ctx c depth)

theorem bfsLoopF_shape (ctx : BuildCtx) (fuel : Nat) :
    ∀ (queue : List QueueItem) (visited : Finset String)
      (nodes : List DiagramNode),
      (∀ n ∈ nodes, NodeFromBuild ctx n) →
      ∀ n ∈ bfsLoopF ctx fuel queue visited nodes, NodeFromBuild ctx n := by
  induction fuel with
  | zero =>
    intro queue visited nodes hn
    cases queue <;> simpa [bfsLoopF] using hn
  | succ fuel ih =>
    intro queue visited nodes hn
    cases queue with
    | nil => simpa [bfsLoopF] using hn
    | cons item rest =>
      by_cases hv : item.name ∈ visited
      · simp only [bfsLoopF, hv, if_true]
        exact ih rest visited nodes hn
      · cases item with
        | entityItem e depth =>
          simp only [bfsLoopF, hv, if_false]
          refine ih _ _ _ ?_
          intro n hmem
          rw [List.mem_append] at hmem
          cases hmem with
          | inl h => exact hn n h
          | inr h =>
            simp only [List.mem_singleton] at h
            exact Or.inl ⟨e, depth, h⟩
        | complexItem c depth pp =>
          simp only [bfsLoopF, hv, if_false]
          refine ih _ _ _ ?_
          intro n hmem
          rw [List.mem_append] at hmem
          cases hmem with
          | inl h => exact hn n h
          | inr h =>
            simp only [List.mem_singleton] at h
            exact Or.inr ⟨c, depth, h⟩

theorem bfsLoopF_root_head (ctx : BuildCtx) (fuel : Nat) :
    ∃ t, bfsLoopF ctx (fuel + 1) [QueueItem.entityItem ctx.rootEntity 0] ∅ [] =
      mkEntityNode ctx ctx.rootEntity 0 :: t := by
  have hv : (QueueItem.entityItem ctx.rootEntity 0).name ∉ (∅ : Finset String) :=
    Finset.not_mem_empty _
  simp only [bfsLoopF, hv, if_false]
  obtain ⟨t, ht⟩ := bfsLoopF_append ctx fuel
    ([] ++ entityChildren ctx (insert ctx.rootEntity.name ∅) ctx.rootEntity 0)
    (insert ctx.rootEntity.name ∅) ([] ++ [mkEntityNode ctx ctx.rootEntity 0])
  exact ⟨t, by rw [ht]; simp⟩

/-- **C1.**  The graph builder's BFS terminates on every input — the
fuelled loop is stable: at `bfsFuel` the queue is provably drained, so any
additional fuel leaves the result unchanged, even on cyclic navigation
graphs — the emitted node list carries pairwise-distinct identifiers, and
the root entity's node is emitted first with `depth = 0`, `isRoot = true`
and the root's name as identifier. -/
theorem C1_bfs_terminates_nodup_root (md : ODataMetadata) (root : ODataEntity)
    (sel : Option ODataEntity) (exp : Finset String) :
    (∀ extra : Nat,
      bfsLoopF ⟨root, sel, exp, md⟩ (bfsFuel ⟨root, sel, exp, md⟩ + extra)
        [QueueItem.entityItem root 0] ∅ [] = (buildGraph md root sel exp).1) ∧
    ((buildGraph md root sel exp).1.map DiagramNode.id).Nodup ∧
    (buildGraph md root sel exp).1.head? =
      some (mkEntityNode ⟨root, sel, exp, md⟩ root 0) ∧
    (mkEntityNode ⟨root, sel, exp, md⟩ root 0).depth = 0 ∧
    (mkEntityNode ⟨root, sel, exp, md⟩ root 0).isRoot = true ∧
    (mkEntityNode ⟨root, sel, exp, md⟩ root 0).id = root.name := by
  set ctx : BuildCtx := ⟨root, sel, exp, md⟩ with hctx
  have hq : ∀ i ∈ [QueueItem.entityItem root 0], i.name ∈ bfsUniv ctx := by
    intro i hi
    simp only [List.mem_singleton] at hi
    subst hi
    exact Finset.mem_insert_self _ _
  have hm : bfsMeasure ctx [QueueItem.entityItem root 0] ∅ ≤ bfsFuel ctx := by
    simp only [bfsMeasure, bfsFuel, Finset.sdiff_empty, List.length_singleton]
    omega
  refine ⟨?_, ?_, ?_, rfl, ?_, rfl⟩
  · intro extra
    exact bfsLoopF_stable ctx (bfsFuel ctx) extra _ _ _ hq hm
  · exact bfsLoopF_nodup ctx (bfsFuel ctx) _ _ _ (by simp) (by simp)
  · have hsucc : bfsFuel ctx = (16 * (bfsUniv ctx).card + 15) + 1 := by
      simp only [bfsFuel]
    obtain ⟨t, ht⟩ := bfsLoopF_root_head ctx (16 * (bfsUniv ctx).card + 15)
    show (bfsLoopF ctx (bfsFuel ctx) [QueueItem.entityItem root 0] ∅ []).head? = _
    rw [hsucc, ht]
    simp [hctx]
  · simp [mkEntityNode, hctx]

/-- Invariant of the link-derivation pass: every emitted link's pair key is
registered in the key set, keys are pairwise distinct, and every link's
source is an emitted node that is expanded or root. -/
def LinksInv (nodes : List DiagramNode) (st : Finset String × List DiagramLink) :
    Prop :=
  (∀ l ∈ st.2, linkKey l.source.id l.target.id ∈ st.1) ∧
  (st.2.map (fun l => linkKey l.source.id l.target.id)).Nodup ∧
  (∀ l ∈ st.2, l.source ∈ nodes ∧ (l.source.isExpanded || l.source.isRoot) = true)

theorem emitLink_inv (nodes : List DiagramNode) (node : DiagramNode)
    (targetName : String) (ic isN : Bool) (label : String)
    (st : Finset String × List DiagramLink)
    (hnode : node ∈ nodes) (hexp : (node.isExpanded || node.isRoot) = true)
    (h : LinksInv nodes st) :
    LinksInv nodes (emitLink nodes node targetName ic isN label st) := by
  unfold emitLink
  cases hg : nodeMapGet nodes targetName with
  | none => exact h
  | some tn =>
    by_cases hid : tn.id = node.id
    · simp only [hid, if_true]
      exact h
    · simp only [hid, if_false]
      by_cases hk : linkKey node.id tn.id ∈ st.1
      · simp only [hk, if_true]
        exact h
      · simp only [hk, if_false]
        obtain ⟨h1, h2, h3⟩ := h
        refine ⟨?_, ?_, ?_⟩
        · intro l hl
          rw [List.mem_append] at hl
          cases hl with
          | inl hl => exact Finset.mem_insert_of_mem (h1 l hl)
          | inr hl =>
            simp only [List.mem_singleton] at hl
            subst hl
            exact Finset.mem_insert_self _ _
        · rw [List.map_append, List.nodup_append]
          refine ⟨h2, by simp, ?_⟩
          intro a ha hb
          simp only [List.map_cons, List.map_nil, List.mem_singleton] at hb
          subst hb
          rw [List.mem_map] at ha
          obtain ⟨l, hl, hkey⟩ := ha
          exact hk (hkey ▸ h1 l hl)
        · intro l hl
          rw [List.mem_append] at hl
          cases hl with
          | inl hl => exact h3 l hl
          | inr hl =>
            simp only [List.mem_singleton] at hl
            subst hl
            exact ⟨hnode, hexp⟩

theorem foldl_emit_inv {α : Type} (nodes : List DiagramNode) (node : DiagramNode)
    (g : α → String) (gi gn : α → Bool) (gl : α → String)
    (hnode : node ∈ nodes) (hexp : (node.isExpanded || node.isRoot) = true) :
    ∀ (l : List α) (st : Finset String × List DiagramLink),
      LinksInv nodes st →
      LinksInv nodes
        (l.foldl (fun s a => emitLink nodes node (g a) (gi a) (gn a) (gl a) s) st) := by
  intro l
  induction l with
  | nil => intro st h; exact h
  | cons a t ih =>
    intro st h
    exact ih _ (emitLink_inv nodes node (g a) (gi a) (gn a) (gl a) st hnode hexp h)

theorem linksForNode_inv (ctx : BuildCtx) (nodes : List DiagramNode)
    (node : DiagramNode) (st : Finset String × List DiagramLink)
    (hnode : node ∈ nodes) (h : LinksInv nodes st) :
    LinksInv nodes (linksForNode ctx nodes node st) := by
  simp only [linksForNode]
  split
  · refine foldl_emit_inv nodes node (fun nc : String × String => nc.2)
      (fun _ => true) (fun _ => true) (fun nc : String × String => nc.1)
      hnode (by assumption) _ _ ?_
    exact foldl_emit_inv nodes node
      (fun nav : ODataNavigationProperty => nav.targetEntity)
      (fun nav : ODataNavigationProperty => nav.isCollection) (fun _ => false)
      (fun nav : ODataNavigationProperty => nav.name)
      hnode (by assumption) _ _ h
  · exact h

theorem foldl_links_inv (ctx : BuildCtx) (nodes : List DiagramNode) :
    ∀ (l : List DiagramNode) (st : Finset String × List DiagramLink),
      (∀ a ∈ l, a ∈ nodes) → LinksInv nodes st →
      LinksInv nodes (l.foldl (fun s node => linksForNode ctx nodes node s) st) := by
  intro l
  induction l with
  | nil => intro st _ h; exact h
  | cons a t ih =>
    intro st hmem h
    exact ih _ (fun b hb => hmem b (List.mem_cons_of_mem _ hb))
      (linksForNode_inv ctx nodes a st (hmem a (List.mem_cons_self a t)) h)

theorem buildLinks_inv (ctx : BuildCtx) (nodes : List DiagramNode) :
    LinksInv nodes
      (nodes.foldl (fun st node => linksForNode ctx nodes node st) (∅, [])) :=
  foldl_links_inv ctx nodes nodes (∅, []) (fun _ h => h)
    ⟨fun _ h => absurd h (List.not_mem_nil _), List.nodup_nil,
     fun _ h => absurd h (List.not_mem_nil _)⟩

theorem linkKey_comm (a b : String) : linkKey a b = linkKey b a := by
  unfold linkKey
  rcases le_total a b with h | h
  · by_cases h2 : b ≤ a
    · have : a = b := le_antisymm h h2
      subst this
      simp
    · simp [h, h2]
  · by_cases h2 : a ≤ b
    · have : a = b := le_antisymm h2 h
      subst this
      simp
    · simp [h, h2]

/-- **C7.**  In every built subgraph, every link's source node is the root
or a member of `expandedNodeIds` (so a node that is neither contributes no
outgoing links), and links are deduplicated by unordered pair key: no two
links in the list connect the same two identifiers in either direction. -/
theorem C7_links_expanded_sources_dedup (md : ODataMetadata) (root : ODataEntity)
    (sel : Option ODataEntity) (exp : Finset String) :
    (∀ l ∈ (buildGraph md root sel exp).2,
      l.source.id = root.name ∨ l.source.id ∈ exp) ∧
    List.Pairwise
      (fun a b => ¬ ((a.source.id = b.source.id ∧ a.target.id = b.target.id) ∨
        (a.source.id = b.target.id ∧ a.target.id = b.source.id)))
      (buildGraph md root sel exp).2 := by
  have hinv := buildLinks_inv ⟨root, sel, exp, md⟩
    (bfsLoopF ⟨root, sel, exp, md⟩ (bfsFuel ⟨root, sel, exp, md⟩)
      [QueueItem.entityItem root 0] ∅ [])
  have hshape := bfsLoopF_shape ⟨root, sel, exp, md⟩
    (bfsFuel ⟨root, sel, exp, md⟩) [QueueItem.entityItem root 0] ∅ []
    (by intro n hn; cases hn)
  have hlinks : (buildGraph md root sel exp).2 =
      ((bfsLoopF ⟨root, sel, exp, md⟩ (bfsFuel ⟨root, sel, exp, md⟩)
        [QueueItem.entityItem root 0] ∅ []).foldl
        (fun st node => linksForNode ⟨root, sel, exp, md⟩
          (bfsLoopF ⟨root, sel, exp, md⟩ (bfsFuel ⟨root, sel, exp, md⟩)
            [QueueItem.entityItem root 0] ∅ []) node st) (∅, [])).2 := rfl
  constructor
  · intro l hl
    rw [hlinks] at hl
    obtain ⟨hsrc, hok⟩ := hinv.2.2 l hl
    obtain he | hc := hshape l.source hsrc
    · obtain ⟨e, d, hform⟩ := he
      rw [hform] at hok ⊢
      simp only [mkEntityNode, Bool.or_eq_true, decide_eq_true_eq] at hok
      cases hok with
      | inl h => exact Or.inr h
      | inr h => exact Or.inl h
    · obtain ⟨c, d, hform⟩ := hc
      rw [hform] at hok ⊢
      simp only [mkComplexNode, Bool.or_eq_true, decide_eq_true_eq,
        Bool.or_false] at hok
      exact Or.inr hok
  · have hnd := hinv.2.1
    rw [← hlinks] at hnd
    have hpw := (List.pairwise_map.mp hnd)
    refine hpw.imp ?_
    intro a b hk hsame
    apply hk
    cases hsame with
    | inl h => rw [h.1, h.2]
    | inr h => rw [h.1, h.2, linkKey_comm]

/-- **C7, witness.**  In the cyclic two-entity diagram rooted at `A` with
nothing expanded, the single emitted link has the root as its source. -/
theorem C7_witness :
    (buildGraph mdAB entA none ∅).2.head! ∈ (buildGraph mdAB entA none ∅).2 ∧
    ((buildGraph mdAB entA none ∅).2.head!.source.id = entA.name ∨
      (buildGraph mdAB entA none ∅).2.head!.source.id ∈ (∅ : Finset String)) := by
  have hne : (buildGraph mdAB entA none ∅).2 ≠ [] := by decide
  have hmem := List.head!_mem_self hne
  exact ⟨hmem, (C7_links_expanded_sources_dedup mdAB entA none ∅).1 _ hmem⟩

/-! ## Layout lemmas -/

/-- The laid-out node list of a build call (the list C9 talks about). -/
def layoutOf (md : ODataMetadata) (root : ODataEntity)
    (sel : Option ODataEntity) (exp : Finset String) : List DiagramNode :=
  layoutNodes (buildGraph md root sel exp).1

theorem layoutAux_length (nodes : List DiagramNode) :
    ∀ (l : List DiagramNode) (k : Nat), (layoutAux nodes k l).length = l.length := by
  intro l
  induction l with
  | nil => intro k; rfl
  | cons n rest ih => intro k; simp [layoutAux, ih]

theorem layoutNodes_length (nodes : List DiagramNode) :
    (layoutNodes nodes).length = nodes.length :=
  layoutAux_length nodes nodes 0

theorem layoutAux_getElem (nodes : List DiagramNode) :
    ∀ (l : List DiagramNode) (k i : Nat) (h : i < l.length),
      (layoutAux nodes k l).get ⟨i, by rw [layoutAux_length]; exact h⟩ =
        placeNode nodes (k + i) (l.get ⟨i, h⟩) := by
  intro l
  induction l with
  | nil => intro k i h; exact absurd h (by simp)
  | cons n rest ih =>
    intro k i h
    cases i with
    | zero => simp [layoutAux, List.get_eq_getElem]
    | succ m =>
      have hm : m < rest.length := by simpa using h
      have := ih (k + 1) m hm
      simp only [List.get_eq_getElem] at this ⊢
      simp only [layoutAux, List.getElem_cons_succ]
      rw [this]
      congr 1
      omega

theorem layoutNodes_getElem (nodes : List DiagramNode) (i : Nat)
    (h : i < nodes.length) :
    (layoutNodes nodes).get ⟨i, by rw [layoutNodes_length]; exact h⟩ =
      placeNode nodes i (nodes.get ⟨i, h⟩) := by
  have := layoutAux_getElem nodes nodes 0 i h
  simpa [layoutNodes] using this

theorem levelOffsetBefore_gap (nodes : List DiagramNode)
    (hw : ∀ n ∈ nodes, (0 : ℚ) ≤ n.width)
    (i j : Nat) (hij : i < j) (hi : i < nodes.length)
    (d : Nat) (hd : nodes[i].depth = d) :
    nodes[i].width + NODE_SPACING + levelOffsetBefore nodes i d ≤
      levelOffsetBefore nodes j d := by
  have hsplit : nodes.take j = nodes.take i ++ (nodes.drop i).take (j - i) := by
    conv_lhs => rw [show j = i + (j - i) by omega]
    rw [List.take_add]
  have hdrop : nodes.drop i = nodes[i] :: nodes.drop (i + 1) :=
    List.drop_eq_getElem_cons hi
  have hmid : (nodes.drop i).take (j - i) =
      nodes[i] :: (nodes.drop (i + 1)).take (j - i - 1) := by
    rw [hdrop]
    cases hji : j - i with
    | zero => omega
    | succ m =>
      rw [List.take_succ_cons]
      simp
  unfold levelOffsetBefore
  rw [hsplit, List.filter_append, List.map_append, List.sum_append, hmid,
    List.filter_cons]
  have hdec : decide (nodes[i].depth = d) = true := by simp [hd]
  rw [hdec]
  simp only [if_true, List.map_cons, List.sum_cons]
  have hrest : (0 : ℚ) ≤ ((((nodes.drop (i + 1)).take (j - i - 1)).filter
      (fun m => m.depth = d)).map (fun m => m.width + NODE_SPACING)).sum := by
    apply List.sum_nonneg
    intro x hx
    rw [List.mem_map] at hx
    obtain ⟨m, hm, rfl⟩ := hx
    have hmem : m ∈ nodes := by
      have h1 := List.mem_of_mem_filter hm
      have h2 := List.mem_of_mem_take h1
      have h3 := List.mem_of_mem_drop h2
      exact h3
    have := hw m hmem
    simp only [NODE_SPACING]
    linarith
  simp only [NODE_SPACING] at *
  linarith

theorem placeNode_order (nodes : List DiagramNode)
    (hw : ∀ n ∈ nodes, (0 : ℚ) ≤ n.width)
    (i j : Nat) (hi : i < nodes.length) (hj : j < nodes.length) (hij : i < j)
    (hd : nodes[i].depth = nodes[j].depth) :
    (placeNode nodes i nodes[i]).x + nodes[i].width / 2 <
      (placeNode nodes j nodes[j]).x - nodes[j].width / 2 ∧
    (placeNode nodes i nodes[i]).x < (placeNode nodes j nodes[j]).x := by
  have hgap := levelOffsetBefore_gap nodes hw i j hij hi (nodes[j].depth) hd
  have hwi := hw _ (List.getElem_mem hi)
  have hwj := hw _ (List.getElem_mem hj)
  simp only [placeNode, hd]
  simp only [NODE_SPACING] at hgap
  constructor <;> linarith

/-- **C9.**  After layout: two distinct nodes at the same depth have
disjoint horizontal extents (`x ± width/2`), ordered left-to-right by
input order; every node's `y` is `depth * LEVEL_HEIGHT`; every node's
width is `max 60 (displayName.length * CHAR_WIDTH + NODE_PADDING * 2)`. -/
theorem C9_layout_geometry (md : ODataMetadata) (root : ODataEntity)
    (sel : Option ODataEntity) (exp : Finset String) :
    (∀ i j : Fin (layoutOf md root sel exp).length, (i : ℕ) < (j : ℕ) →
      ((layoutOf md root sel exp).get i).depth =
        ((layoutOf md root sel exp).get j).depth →
      ((layoutOf md root sel exp).get i).x +
          ((layoutOf md root sel exp).get i).width / 2 <
        ((layoutOf md root sel exp).get j).x -
          ((layoutOf md root sel exp).get j).width / 2 ∧
      ((layoutOf md root sel exp).get i).x <
        ((layoutOf md root sel exp).get j).x) ∧
    (∀ n ∈ layoutOf md root sel exp,
      n.y = (n.depth : ℚ) * LEVEL_HEIGHT ∧
      n.width = max 60 ((n.displayName.length : ℚ) * CHAR_WIDTH + NODE_PADDING * 2)) := by
  have hshape := bfsLoopF_shape ⟨root, sel, exp, md⟩
    (bfsFuel ⟨root, sel, exp, md⟩) [QueueItem.entityItem root 0] ∅ []
    (by intro n hn; cases hn)
  have hwform : ∀ n ∈ (buildGraph md root sel exp).1,
      n.width = calculateNodeWidth n.displayName := by
    intro n hn
    obtain he | hc := hshape n hn
    · obtain ⟨e, d, rfl⟩ := he
      rfl
    · obtain ⟨c, d, rfl⟩ := hc
      rfl
  have hw : ∀ n ∈ (buildGraph md root sel exp).1, (0 : ℚ) ≤ n.width := by
    intro n hn
    rw [hwform n hn]
    unfold calculateNodeWidth
    have := le_max_left (60 : ℚ)
      ((n.displayName.length : ℚ) * CHAR_WIDTH + NODE_PADDING * 2)
    linarith
  constructor
  · intro i j hij hd
    have hi : (i : ℕ) < (buildGraph md root sel exp).1.length := by
      have := i.isLt
      simp only [layoutOf, layoutNodes_length] at this
      exact this
    have hj : (j : ℕ) < (buildGraph md root sel exp).1.length := by
      have := j.isLt
      simp only [layoutOf, layoutNodes_length] at this
      exact this
    have hgi : (layoutOf md root sel exp).get i =
        placeNode (buildGraph md root sel exp).1 i
          ((buildGraph md root sel exp).1[(i : ℕ)]) := by
      simp only [List.get_eq_getElem, layoutOf]
      exact layoutNodes_getElem (buildGraph md root sel exp).1 i hi
    have hgj : (layoutOf md root sel exp).get j =
        placeNode (buildGraph md root sel exp).1 j
          ((buildGraph md root sel exp).1[(j : ℕ)]) := by
      simp only [List.get_eq_getElem, layoutOf]
      exact layoutNodes_getElem (buildGraph md root sel exp).1 j hj
    rw [hgi, hgj] at hd ⊢
    have hdepth : ((buildGraph md root sel exp).1[(i : ℕ)]).depth =
        ((buildGraph md root sel exp).1[(j : ℕ)]).depth := hd
    have := placeNode_order (buildGraph md root sel exp).1 hw i j hi hj hij hdepth
    exact this
  · intro n hn
    rw [layoutOf] at hn
    rw [List.mem_iff_getElem] at hn
    obtain ⟨i, hlen, hget⟩ := hn
    have hi : i < (buildGraph md root sel exp).1.length := by
      rwa [layoutNodes_length] at hlen
    have hget2 : (layoutNodes (buildGraph md root sel exp).1).get ⟨i, hlen⟩ = n :=
      hget
    rw [layoutNodes_getElem (buildGraph md root sel exp).1 i hi] at hget2
    subst hget2
    refine ⟨rfl, ?_⟩
    have hb := hwform _ (List.getElem_mem hi)
    show ((buildGraph md root sel exp).1[i]).width = _
    rw [hb]
    rfl

/-- The depth-1 siblings of the layout witness document. -/
def c9iFin : Fin (layoutOf mdRootBC entRoot2 none ∅).length := ⟨1, by decide⟩

/-- Second depth-1 sibling of the layout witness document. -/
def c9jFin : Fin (layoutOf mdRootBC entRoot2 none ∅).length := ⟨2, by decide⟩

/-- **C9, witness.**  The two depth-1 nodes of the three-entity example are
disjoint and ordered, and the first node's `y` follows its depth. -/
theorem C9_witness :
    ((c9iFin : ℕ) < (c9jFin : ℕ)) ∧
    ((layoutOf mdRootBC entRoot2 none ∅).get c9iFin).depth =
      ((layoutOf mdRootBC entRoot2 none ∅).get c9jFin).depth ∧
    (((layoutOf mdRootBC entRoot2 none ∅).get c9iFin).x +
        ((layoutOf mdRootBC entRoot2 none ∅).get c9iFin).width / 2 <
      ((layoutOf mdRootBC entRoot2 none ∅).get c9jFin).x -
        ((layoutOf mdRootBC entRoot2 none ∅).get c9jFin).width / 2) ∧
    (layoutOf mdRootBC entRoot2 none ∅).head!.y =
      ((layoutOf mdRootBC entRoot2 none ∅).head!.depth : ℚ) * LEVEL_HEIGHT := by
  have h := (C9_layout_geometry mdRootBC entRoot2 none ∅).1 c9iFin c9jFin
    (by decide) (by decide)
  have hne : layoutOf mdRootBC entRoot2 none ∅ ≠ [] := by decide
  have h2 := (C9_layout_geometry mdRootBC entRoot2 none ∅).2 _
    (List.head!_mem_self hne)
  exact ⟨by decide, by decide, h.1, h2.1⟩

/-! ## Evaluation sanity checks

Concrete evaluations of the embedded functions, checked by kernel
reduction. -/

theorem sanity_string_prims :
    jsIncludes "NorthwindModel" "wind" = true ∧ jsIncludes "abc" "" = true ∧
    lastSegment "NorthwindModel.Order" = "Order" ∧ lastSegment "" = "" ∧
    lowerStr "Edm.GUID" = "edm.guid" ∧ trimStr "  hi " = "hi" ∧
    jsParseInt " -42x" = some (-42) ∧ jsParseInt "abc" = none := by decide

theorem sanity_regexes :
    ctMatch "Collection(NorthwindModel.Order)" = some "NorthwindModel.Order" ∧
    ctMatch "Collection()" = none ∧
    ctMatch "Collection(A)B)" = some "A)B" ∧
    anchoredCollectionInner "Collection(c_Relate)" = some "c_Relate" ∧
    anchoredCollectionInner "Collection()" = none := by decide

theorem sanity_parse_tiny :
    (parseODataMetadata (.ok tinyDoc)).toOption.map
      (fun md => md.allEntities.map (fun e => e.name)) = some ["A", "B"] ∧
    (parseODataMetadata (.ok tinyDoc)).toOption.map
      (fun md => md.allEntities.map (fun e =>
        e.navigationProperties.map (fun np => (np.targetEntity, np.isCollection)))) =
      some [[("B", true)], [("A", false)]] := by decide

theorem sanity_buildGraph :
    ((buildGraph mdAB entA none ∅).1.map (fun n => (n.id, n.depth, n.isRoot))) =
      [("A", 0, true), ("B", 1, false)] ∧
    ((buildGraph mdAB entA none ∅).2.map
      (fun l => (l.source.id, l.target.id, l.isCollection))) = [("A", "B", true)] ∧
    ((layoutNodes (buildGraph mdRootBC entRoot2 none ∅).1).map
      (fun n => (n.id, n.depth))) = [("Root", 0), ("B", 1), ("C", 1)] := by decide

theorem sanity_matchHint : getMatchHint entGuid "guid" = some "type: Guid" := by
  decide
